import Mathlib

/-!
# badminton2.0: the booking workflow of `main.go`

A shallow embedding of `findOkArea`, `GetCookies`, `getOrderData`, `order` and
`main`, with the properties of the written specification stated over it.

Conventions of the embedding.

* A Go `string` is a Lean `String`; a Go `int` is an `Int` (the only arithmetic
  on one, `target.Time+1`, is wrapped to 64 bits by `wrapInt64`).
* A Go `map[string]V` is a `GoMap V`: the list of its entries, keys distinct,
  with `GoMap.get?` for `m[k]` and `GoMap.set` for `m[k] = v`.  The order in
  which `range` visits a map is not fixed by Go; it is chosen by a `RangeOrder`.
* The network is explicit: the answer to every request is an input, `client.Do`
  of `order` follows redirects as the default `http.Client` does, and every
  function that talks to the network returns the requests it sent.
-/

set_option maxRecDepth 100000

namespace Badminton

/-! ## Go maps -/

/-- A Go `map[string]V`, as the list of its entries. -/
abbrev GoMap (V : Type) := List (String × V)

namespace GoMap

/-- The lookup `v, ok := m[k]`. -/
def get? {V : Type} : GoMap V → String → Option V
  | [], _ => none
  | (k', v) :: m, k => if k' = k then some v else get? m k

/-- The assignment `m[k] = v`: overwrite the entry of `k`, or add one. -/
def set {V : Type} : GoMap V → String → V → GoMap V
  | [], k, v => [(k, v)]
  | (k', v') :: m, k, v => if k' = k then (k, v) :: m else (k', v') :: set m k v

/-- The builtin `len(m)`. -/
def len {V : Type} (m : GoMap V) : Nat := m.length

end GoMap

/-- A choice of the order in which `for k, v := range m` visits the entries of
a map: some permutation of the entries. -/
structure RangeOrder where
  order : GoMap String → List (String × String)
  perm : ∀ m, (order m).Perm m

/-- The order of the entry list itself. -/
def RangeOrder.id : RangeOrder := ⟨fun m => m, fun m => List.Perm.refl m⟩

/-- The reverse of the entry list. -/
def RangeOrder.rev : RangeOrder := ⟨fun m => m.reverse, fun m => List.reverse_perm m⟩

/-! ## `fmt` verbs for integers -/

/-- The digit table `"0123456789"` of package `fmt`. -/
def digitChar (d : Nat) : Char := "0123456789".data.getD d '0'

/-- The decimal digits of `u`, most significant first: the loop
`for u >= 10 { buf[i] = '0' + u%10; u /= 10 }; buf[i] = digits[u]` of
`fmt.fmtInteger`; `fuel` bounds the number of digits. -/
def fmtDigits : Nat → Nat → List Char
  | 0, _ => []
  | fuel + 1, u => if u < 10 then [digitChar u] else fmtDigits fuel (u / 10) ++ [digitChar (u % 10)]

/-- Left padding with `'0'` up to `prec` digits. -/
def zeroPad (prec : Nat) (ds : List Char) : List Char :=
  List.replicate (prec - ds.length) '0' ++ ds

/-- The verb `%0<wid>d` (`%d` is `wid = 0`) of `fmt.fmtInteger` on a signed
integer: the digits of the magnitude, zero padded to `wid` digits, one less if
there is a sign to leave room for, then the sign. -/
def fmtInteger (wid : Nat) (v : Int) : String :=
  if v < 0 then
    ⟨'-' :: zeroPad (wid - 1) (fmtDigits (v.natAbs + 1) v.natAbs)⟩
  else
    ⟨zeroPad wid (fmtDigits (v.natAbs + 1) v.natAbs)⟩

/-- Go's `int` addition on a 64-bit platform wraps around. -/
def wrapInt64 (v : Int) : Int := (v + 2 ^ 63) % 2 ^ 64 - 2 ^ 63

/-! ## Data model (`main.go`, lines 27-67) -/

structure APIsConfig where
  Index : String
  Login : String
  FindOkArea : String
  Order : String
  Pay : String
  deriving DecidableEq

structure UserConfig where
  Username : String
  Password : String
  QmsgKey : String
  deriving DecidableEq

structure TargetConfig where
  Time : Int
  Number : Int
  deriving DecidableEq

structure Config where
  APIs : APIsConfig
  User : UserConfig
  EarliestOrderTime : String
  Target : List TargetConfig
  deriving DecidableEq

structure Stock where
  TimeNo : String
  deriving DecidableEq

structure Area where
  SName : String
  Stock : Stock
  StockID : Int
  ID : Int
  deriving DecidableEq

structure AreaInfo where
  ID : Int
  SName : String
  StockID : Int
  deriving DecidableEq

/-- The six fixed request headers (`main.go`, lines 18-25). -/
def BASIC_HEADERS : GoMap String :=
  [("Accept", "*/*"),
   ("Host", "ydfwpt.cug.edu.cn"),
   ("Origin", "http://ydfwpt.cug.edu.cn"),
   ("Content-Type", "application/x-www-form-urlencoded"),
   ("Referer", "http://ydfwpt.cug.edu.cn/"),
   ("Connection", "keep-alive")]

/-! ## `getOrderData`: the lookup key (`main.go`, lines 226-232) -/

/-- The local `targetName := fmt.Sprintf("场地%d", target.Number)`. -/
def targetName (target : TargetConfig) : String :=
  "场地" ++ fmtInteger 0 target.Number

/-- The local
`targetTimeStr := fmt.Sprintf("%02d:01-%02d:00", target.Time, target.Time+1)`. -/
def targetTimeStr (target : TargetConfig) : String :=
  fmtInteger 2 target.Time ++ ":01-" ++ fmtInteger 2 (wrapInt64 (target.Time + 1)) ++ ":00"

/-- The key `targetTimeStr+targetName` under which `getOrderData` reads
`okAreaDict`. -/
def targetKey (target : TargetConfig) : String :=
  targetTimeStr target ++ targetName target

/-! ## `encoding/json`: marshalling of the two map types that are used -/

/-- The double quote. -/
def quoteChar : Char := Char.ofNat 34

/-- The backslash. -/
def backslashChar : Char := Char.ofNat 92

/-- The table `"0123456789abcdef"` of package `encoding/json`. -/
def hexChar (d : Nat) : Char := "0123456789abcdef".data.getD d '0'

/-- How `json.Marshal` (with its default HTML escaping) writes one character of
a string: the quote and the backslash behind a backslash, the short escapes,
`\u00XX` for the other control characters and for `<`, `>` and `&`, the line
and paragraph separators U+2028 and U+2029 escaped, everything else as it is. -/
def jsonEscapeChar (c : Char) : List Char :=
  if c = backslashChar ∨ c = quoteChar then [backslashChar, c]
  else if c = Char.ofNat 8 then [backslashChar, 'b']
  else if c = Char.ofNat 12 then [backslashChar, 'f']
  else if c = Char.ofNat 10 then [backslashChar, 'n']
  else if c = Char.ofNat 13 then [backslashChar, 'r']
  else if c = Char.ofNat 9 then [backslashChar, 't']
  else if c.toNat < 32 ∨ c = '<' ∨ c = '>' ∨ c = '&' then
    [backslashChar, 'u', '0', '0', hexChar (c.toNat / 16), hexChar (c.toNat % 16)]
  else if c = Char.ofNat 8232 then [backslashChar, 'u', '2', '0', '2', '8']
  else if c = Char.ofNat 8233 then [backslashChar, 'u', '2', '0', '2', '9']
  else [c]

/-- The characters of a Go string as `json.Marshal` writes them between the
quotes. -/
def jsonEscape (s : String) : String := ⟨s.data.flatMap jsonEscapeChar⟩

/-- A Go string as a JSON string literal. -/
def jsonString (s : String) : String :=
  ⟨quoteChar :: ((jsonEscape s).data ++ [quoteChar])⟩

/-- The order of Go strings: lexicographic, character by character. -/
def lexLess : List Char → List Char → Bool
  | _, [] => false
  | [], _ :: _ => true
  | a :: as, b :: bs => a.toNat < b.toNat || (a.toNat = b.toNat && lexLess as bs)

/-- The entries of a map in the order `json.Marshal` writes them: sorted by key. -/
def sortByKey {V : Type} (m : GoMap V) : GoMap V :=
  m.insertionSort (fun a b => lexLess a.1.data b.1.data = true)

/-- The `json.Marshal` of an object whose members are already encoded. -/
def jsonObject (members : List (String × String)) : String :=
  "\x7b" ++ ",".intercalate (members.map fun kv => jsonString kv.1 ++ ":" ++ kv.2) ++ "\x7d"

/-- The `json.Marshal` of a `map[string]string`. -/
def marshalStringMap (m : GoMap String) : String :=
  jsonObject ((sortByKey m).map fun kv => (kv.1, jsonString kv.2))

/-- The values held by the `map[string]interface{}` named `param`: a string or
a `map[string]string`. -/
inductive ParamValue where
  | str (s : String)
  | strMap (m : GoMap String)
  deriving DecidableEq

/-- The `json.Marshal` of one value of `param`. -/
def marshalParamValue : ParamValue → String
  | .str s => jsonString s
  | .strMap m => marshalStringMap m

/-- The `json.Marshal` of the `map[string]interface{}` named `param`. -/
def marshalParam (param : GoMap ParamValue) : String :=
  jsonObject ((sortByKey param).map fun kv => (kv.1, marshalParamValue kv.2))

/-! ## `getOrderData` (`main.go`, lines 205-256) -/

/-- The statement `param["stockdetail"].(map[string]string)[k] = v`. -/
def setStockDetail (param : GoMap ParamValue) (k v : String) : GoMap ParamValue :=
  match param.get? "stockdetail" with
  | some (.strMap detail) => param.set "stockdetail" (.strMap (detail.set k v))
  | _ => param

/-- The builtin `len` of a `[]byte`; `none` is the nil slice. -/
def payloadLen : Option String → Nat
  | none => 0
  | some s => s.utf8ByteSize

/-- The function `getOrderData`: the request headers and the POST body (`none`
is the nil slice) for one target.  The two calls of `json.Marshal` are on maps
of strings, for which it returns no error, so the branch `if err != nil` after
the first is never taken. -/
def getOrderData (ro : RangeOrder) (target : TargetConfig) (cookies : GoMap String)
    (okAreaDict : GoMap AreaInfo) : GoMap String × Option String :=
  let headers : GoMap String :=
    (ro.order BASIC_HEADERS).foldl (fun h kv => h.set kv.1 kv.2) []
  let cookieParts : List String :=
    (ro.order cookies).foldl (fun parts kv => parts ++ [kv.1 ++ "=" ++ kv.2]) []
  let headers := headers.set "Cookie" ("; ".intercalate cookieParts)
  let param : GoMap ParamValue :=
    [("stockdetail", .strMap []), ("serviceid", .str "1"), ("stockid", .str ""),
     ("remark", .str "")]
  match okAreaDict.get? (targetTimeStr target ++ targetName target) with
  | none => (headers, none)
  | some areaData =>
    let param := setStockDetail param (fmtInteger 0 areaData.StockID) (fmtInteger 0 areaData.ID)
    let param := param.set "stockid" (.str (fmtInteger 0 areaData.StockID ++ ","))
    let paramJSON := marshalParam param
    let payload : GoMap String := [("param", paramJSON), ("num", "1"), ("json", "true")]
    (headers, some (marshalStringMap payload))

/-! ## `order` (`main.go`, lines 258-293) -/

/-- An HTTP request handed to `client.Do`. -/
structure Request where
  method : String
  url : String
  header : GoMap String
  body : String
  deriving DecidableEq

/-- What the server answers to one request, as far as `order` and `client.Do`
read it: the status code, the `Location` header (empty when there is none) and
`result.Message` after `Decode` of the body (the empty string when the body
does not decode). -/
structure HttpResponse where
  statusCode : Int
  location : String
  message : String
  deriving DecidableEq

/-- The outcome of sending one request: a transport error or a response. -/
inductive Exchange where
  | error (e : String)
  | response (resp : HttpResponse)
  deriving DecidableEq

/-- The HTTP side of `order`, over a state `σ` of the outside world:
`newRequestErr url` is the error of `http.NewRequest` for `url`, if any;
`roundTrip` sends one request and receives its answer; `parseLocation` is
`req.URL.Parse(loc)` on a `Location` header, and `redirectHeader` gives the
headers that `client.Do` puts on a redirected request (from the first request,
the previous one and the new URL). -/
structure Client (σ : Type) where
  newRequestErr : String → Option String
  roundTrip : σ → Request → Exchange × σ
  parseLocation : String → String → Option String
  redirectHeader : Request → Request → String → GoMap String

/-- The function `redirectBehavior` of `net/http`: for a response that is to be
followed, the method of the next request and whether the body is sent again.
301, 302 and 303 turn every method but GET and HEAD into GET, without body;
307 and 308 keep the method and send the body again (the body of `order` is a
`*bytes.Buffer`, for which `http.NewRequest` sets `GetBody`). -/
def redirectBehavior (reqMethod : String) (statusCode : Int) : Option (String × Bool) :=
  if statusCode = 301 ∨ statusCode = 302 ∨ statusCode = 303 then
    some (if reqMethod ≠ "GET" ∧ reqMethod ≠ "HEAD" then "GET" else reqMethod, false)
  else if statusCode = 307 ∨ statusCode = 308 then
    some (reqMethod, true)
  else
    none

/-- What `client.Do` does with a response: hand it to the caller, fail, or
follow it with another request. -/
inductive Hop where
  | deliver
  | fail (e : String)
  | follow (next : Request)
  deriving DecidableEq

/-- The decision of `client.Do` after the response `resp` to `req`, where `ireq`
is the first request: no redirect status or no `Location` delivers the response,
a `Location` that does not parse fails, and otherwise the next request is made
with the redirect method, the new URL and, if the body is included, the body of
the first request. -/
def nextHop {σ : Type} (net : Client σ) (ireq req : Request) (resp : HttpResponse) : Hop :=
  match redirectBehavior req.method resp.statusCode with
  | none => .deliver
  | some (redirectMethod, includeBody) =>
    if resp.location = "" then .deliver
    else
      match net.parseLocation req.url resp.location with
      | none => .fail ("failed to parse Location header " ++ resp.location)
      | some u =>
        .follow ⟨redirectMethod, u, net.redirectHeader ireq req u,
          if includeBody then ireq.body else ""⟩

/-- The result of one `client.Do`: the response or the error, every request
that was sent, in order, and the world afterwards. -/
structure DoRun (σ : Type) where
  result : Except String HttpResponse
  sent : List Request
  world : σ

/-- The loop of `client.Do` for a client with no `CheckRedirect`, as in
`client := &http.Client{}`: send `req`, and follow redirects until the default
policy stops them.  `via` holds the requests already sent and `budget` is
`9 - len(via)`: the default policy refuses the next request once ten have been
sent ("stopped after 10 redirects"). -/
def doLoop {σ : Type} (net : Client σ) (ireq : Request) :
    Nat → Request → List Request → σ → DoRun σ
  | budget, req, via, w =>
    match net.roundTrip w req with
    | (.error e, w') => ⟨.error e, via ++ [req], w'⟩
    | (.response resp, w') =>
      match nextHop net ireq req resp with
      | .deliver => ⟨.ok resp, via ++ [req], w'⟩
      | .fail e => ⟨.error e, via ++ [req], w'⟩
      | .follow next =>
        match budget with
        | 0 => ⟨.error "stopped after 10 redirects", via ++ [req], w'⟩
        | b + 1 => doLoop net ireq b next (via ++ [req]) w'

/-- The call `client.Do(req)` on the default client. -/
def clientDo {σ : Type} (net : Client σ) (req : Request) (w : σ) : DoRun σ :=
  doLoop net req 9 req [] w

/-- The result of one call of `order`: the two return values, every request
sent by its `client.Do`, and the state of the world afterwards. -/
structure OrderRun (σ : Type) where
  success : Bool
  err : Option String
  sent : List Request
  world : σ

/-- The request that `order` builds with `http.NewRequest("POST", config.APIs.Pay, ...)`
and the loop `req.Header.Set(key, value)` over `orderHeaders`. -/
def orderRequest (ro : RangeOrder) (config : Config) (orderHeaders : GoMap String)
    (orderPayload : Option String) : Request :=
  ⟨"POST", config.APIs.Pay,
   (ro.order orderHeaders).foldl (fun h kv => h.set kv.1 kv.2) [],
   orderPayload.getD ""⟩

/-- The function `order`. -/
def order {σ : Type} (ro : RangeOrder) (net : Client σ) (config : Config)
    (target : TargetConfig) (cookies : GoMap String) (okAreaDict : GoMap AreaInfo)
    (w : σ) : OrderRun σ :=
  let data := getOrderData ro target cookies okAreaDict
  let orderHeaders := data.1
  let orderPayload := data.2
  if payloadLen orderPayload = 0 then
    ⟨false, some "获取预订数据失败", [], w⟩
  else
    match net.newRequestErr config.APIs.Pay with
    | some e => ⟨false, some ("创建HTTP请求失败: " ++ e), [], w⟩
    | none =>
      let req := orderRequest ro config orderHeaders orderPayload
      let run := clientDo net req w
      match run.result with
      | .error e => ⟨false, some ("发送HTTP请求失败: " ++ e), run.sent, run.world⟩
      | .ok resp =>
        if resp.message = "未支付" ∨ resp.message = "预订成功" ∨
            resp.message = "本天预订数量超过限制" then
          ⟨true, some ("预订成功: " ++ resp.message), run.sent, run.world⟩
        else
          ⟨false, none, run.sent, run.world⟩

/-! ## `findOkArea` (`main.go`, lines 80-134) -/

/-- The function `findOkArea`.  Its HTTP part (lines 81-120) is `fetch`: the
decoded `result.Object`, or the error of the request or of the decoding. -/
def findOkArea (fetch : String → String → Except String (List Area))
    (baseurl date : String) : Except String (GoMap AreaInfo) :=
  match fetch baseurl date with
  | .error e => .error e
  | .ok object =>
    .ok (object.foldl
      (fun areaMap area =>
        areaMap.set (area.Stock.TimeNo ++ area.SName) ⟨area.ID, area.SName, area.StockID⟩)
      [])

/-! ## `GetCookies` (`main.go`, lines 136-203) -/

/-- What one pass of the login loop meets: `http.NewRequest` fails, `client.Do`
fails, or a response arrives, with its status code, body and `resp.Cookies()`. -/
inductive LoginAttempt where
  | newRequestError (e : String)
  | doError (e : String)
  | response (statusCode : Int) (body : String) (cookies : List (String × String))
  deriving DecidableEq

/-- What `GetCookies` does that can be observed: it starts attempt `n`, or it
sleeps for a number of seconds. -/
inductive LoginEvent where
  | attempt (n : Nat)
  | sleep (seconds : Nat)
  deriving DecidableEq

/-- The result of `GetCookies`: the two return values (`none` is nil) and the
events in the order they happened. -/
structure LoginRun where
  cookies : Option (GoMap String)
  err : Option String
  events : List LoginEvent
  deriving DecidableEq

/-- The loop `for attempt := 1; attempt <= retries; attempt++` of `GetCookies`,
over the attempt numbers still to come, followed by the final `return`. -/
def loginLoop (retries : Nat) (outcome : Nat → LoginAttempt) :
    List Nat → List LoginEvent → LoginRun
  | [], events => ⟨none, some "达到最大重试次数，登录失败", events⟩
  | attempt :: rest, events =>
    let events := events ++ [.attempt attempt]
    match outcome attempt with
    | .newRequestError _ => loginLoop retries outcome rest events
    | .doError e =>
      if attempt < retries then
        loginLoop retries outcome rest (events ++ [.sleep 2])
      else
        ⟨none, some e, events⟩
    | .response statusCode _ cookies =>
      if statusCode ≠ 200 ∧ statusCode ≠ 302 then
        if attempt < retries then
          loginLoop retries outcome rest (events ++ [.sleep 2])
        else
          ⟨none, some ("请求失败，状态码: " ++ fmtInteger 0 statusCode), events⟩
      else
        ⟨some (cookies.foldl (fun m c => m.set c.1 c.2) []), none, events⟩

/-- The function `GetCookies`; `outcome n` is what attempt `n` meets. -/
def GetCookies (outcome : Nat → LoginAttempt) : LoginRun :=
  loginLoop 20 outcome (List.range' 1 20) []

/-! ## `main` (`main.go`, lines 295-322) -/

/-- What one run of `main` does that can be observed: the fatal log line if it
stopped with `log.Fatalf`, the `order ... result` lines (target, `isOrder`,
`error`), the `order ... error` lines, every request sent, and the world. -/
structure MainRun (σ : Type) where
  fatal : Option String
  results : List (TargetConfig × Bool × Option String)
  skipped : List TargetConfig
  sent : List Request
  world : σ

/-- The loop `for _, target := range config.Target` of `main`; `err` is the
variable `err` of `main`, which the loop reads and never assigns. -/
def orderLoop {σ : Type} (ro : RangeOrder) (net : Client σ) (config : Config)
    (cookies : GoMap String) (okAreaMap : GoMap AreaInfo) (err : Option String) :
    List TargetConfig → MainRun σ → MainRun σ
  | [], run => run
  | target :: rest, run =>
    match err with
    | some _ =>
      orderLoop ro net config cookies okAreaMap err rest
        { run with skipped := run.skipped ++ [target] }
    | none =>
      let r := order ro net config target cookies okAreaMap run.world
      orderLoop ro net config cookies okAreaMap err rest
        { run with
          results := run.results ++ [(target, r.success, r.err)]
          sent := run.sent ++ r.sent
          world := r.world }

/-- The function `main`: `readConfig` is the outcome of `getYAMLConfig`, `fetch`
the HTTP part of `findOkArea`, `today` the formatted date and `login` the
outcomes of the login attempts. -/
def main {σ : Type} (ro : RangeOrder) (net : Client σ) (readConfig : Except String Config)
    (fetch : String → String → Except String (List Area)) (today : String)
    (login : Nat → LoginAttempt) (w : σ) : MainRun σ :=
  match readConfig with
  | .error e => ⟨some ("读取配置文件时发生错误: " ++ e), [], [], [], w⟩
  | .ok config =>
    match findOkArea fetch config.APIs.FindOkArea today with
    | .error e => ⟨some ("获取空闲场地失败: " ++ e), [], [], [], w⟩
    | .ok okAreaMap =>
      let lr := GetCookies login
      match lr.err with
      | some e => ⟨some ("登录失败: " ++ e), [], [], [], w⟩
      | none =>
        orderLoop ro net config (lr.cookies.getD []) okAreaMap lr.err config.Target
          ⟨none, [], [], [], w⟩

/-! ## Vocabulary of the specification -/

/-- The composite key of an Area record: `time_no + sname`. -/
def Area.key (area : Area) : String := area.Stock.TimeNo ++ area.SName

/-- The AreaInfo carrying a record's id, sname and stock_id. -/
def Area.info (area : Area) : AreaInfo := ⟨area.ID, area.SName, area.StockID⟩

/-- A number below 100 as two zero-padded decimal digits. -/
def twoDigits (k : Nat) : String := ⟨[Nat.digitChar (k / 10), Nat.digitChar (k % 10)]⟩

/-- The time-range label of hour `h`: `HH:01-HH+1:00`. -/
def timeRangeLabel (h : Nat) : String := twoDigits h ++ ":01-" ++ twoDigits (h + 1) ++ ":00"

/-- The area label of area number `n`: the prefix and the decimal digits of `n`. -/
def areaLabel (n : Nat) : String := "场地" ++ Nat.repr n

/-- The text of the JSON object with exactly the members `remark` = `""`,
`serviceid` = `"1"`, `stockdetail` = the object with the one member `stock` =
`area`, and `stockid` = `stock` followed by a comma. -/
def paramText (stock area : String) : String :=
  "\x7b\"remark\":\"\",\"serviceid\":\"1\",\"stockdetail\":\x7b\"" ++ stock ++ "\":\"" ++ area ++
    "\"\x7d,\"stockid\":\"" ++ stock ++ ",\"\x7d"

/-- The text of the JSON object with exactly the members `json` = `"true"`,
`num` = `"1"` and `param` = the JSON string whose content is `paramText`: in it
every quote of `paramText` stands behind a backslash. -/
def payloadText (stock area : String) : String :=
  "\x7b\"json\":\"true\",\"num\":\"1\",\"param\":\"\x7b\\\"remark\\\":\\\"\\\",\\\"serviceid\\\":\\\"1\\\",\\\"stockdetail\\\":\x7b\\\"" ++
    stock ++ "\\\":\\\"" ++ area ++ "\\\"\x7d,\\\"stockid\\\":\\\"" ++ stock ++ ",\\\"\x7d\"\x7d"

/-- The value of a decimal digit character. -/
def digitVal (c : Char) : Nat := c.toNat - 48

/-- The number that a list of decimal digits writes. -/
def parseDigits (ds : List Char) : Nat := ds.foldl (fun acc c => acc * 10 + digitVal c) 0

/-- The attempt numbers among the events of a login run. -/
def attemptsOf : List LoginEvent → List Nat
  | [] => []
  | .attempt n :: es => n :: attemptsOf es
  | .sleep _ :: es => attemptsOf es

/-- A login attempt that ends the loop with success: a response with status 200
or 302. -/
def LoginAttempt.ok : LoginAttempt → Bool
  | .response statusCode _ _ => statusCode = 200 || statusCode = 302
  | _ => false

/-- The value of the last cookie of the given name in a Set-Cookie list. -/
def lastValue : List (String × String) → String → Option String
  | [], _ => none
  | (k, v) :: cs, name =>
    match lastValue cs name with
    | some x => some x
    | none => if k = name then some v else none

/-- The number of POST requests in a list of requests. -/
def postCount (requests : List Request) : Nat :=
  (requests.filter fun r => r.method = "POST").length

/-- No response tells the client to repeat a request with its body: a response
with status 307 or 308 has no `Location`. -/
def noBodyRedirect {σ : Type} (net : Client σ) : Prop :=
  ∀ (w w' : σ) (req : Request) (resp : HttpResponse),
    net.roundTrip w req = (.response resp, w') →
    (resp.statusCode = 307 ∨ resp.statusCode = 308) → resp.location = ""

/-- Whether the composite key of a target is in the availability mapping. -/
def keyPresent (okAreaDict : GoMap AreaInfo) (target : TargetConfig) : Bool :=
  (okAreaDict.get? (targetKey target)).isSome


/-! ## Inputs of the worked examples -/

/-- The network of the examples: every URL is well formed, request number `n`
is answered with the `n`-th response of the script (status 200 with an empty
message after the last), a `Location` is taken as it is, and a redirected
request carries the headers of the first one. -/
def scriptedClient (script : List HttpResponse) : Client Nat :=
  ⟨fun _ => none, fun n _ => (.response (script.getD n ⟨200, "", ""⟩), n + 1),
   fun _ loc => some loc, fun ireq _ _ => ireq.header⟩

/-- The configuration of the examples, with the given targets. -/
def exampleConfig (targets : List TargetConfig) : Config :=
  ⟨⟨"http://ydfwpt.cug.edu.cn/index", "http://ydfwpt.cug.edu.cn/login",
    "http://ydfwpt.cug.edu.cn/find", "http://ydfwpt.cug.edu.cn/order",
    "http://ydfwpt.cug.edu.cn/pay"⟩, ⟨"user", "secret", ""⟩, "08:00", targets⟩

/-- The availability mapping of the examples: area 3 at 14:01-15:00 only. -/
def exampleAreas : GoMap AreaInfo := [("14:01-15:00场地3", ⟨77, "场地3", 4021⟩)]

/-- The login of the examples: the first `failures` attempts meet a transport
error, the following ones a 302 response that sets the session cookies. -/
def failingLogin (failures : Nat) (n : Nat) : LoginAttempt :=
  if n ≤ failures then .doError "connection refused"
  else .response 302 "" [("JSESSIONID", "abc"), ("JSESSIONID", "def")]

/-- The availability response of the examples: area 3 at 14:01-15:00 only. -/
def exampleFetch (_baseurl _date : String) : Except String (List Area) :=
  .ok [⟨"场地3", ⟨"14:01-15:00"⟩, 4021, 77⟩]

/-! ## Lemmas on Go maps -/

theorem GoMap.get?_set {V : Type} (m : GoMap V) (k k' : String) (v : V) :
    (m.set k v).get? k' = if k = k' then some v else m.get? k' := by
  induction m with
  | nil => simp [GoMap.set, GoMap.get?]
  | cons e m ih =>
    obtain ⟨ke, ve⟩ := e
    by_cases h : ke = k
    · subst h
      by_cases h' : ke = k' <;> simp [GoMap.set, GoMap.get?, h']
    · by_cases h' : ke = k'
      · subst h'
        have hne : ¬ k = ke := fun e => h e.symm
        simp [GoMap.set, GoMap.get?, h, hne]
      · simp [GoMap.set, GoMap.get?, h, h', ih]

theorem GoMap.set_of_get?_none {V : Type} (m : GoMap V) (k : String) (v : V)
    (h : m.get? k = none) : m.set k v = m ++ [(k, v)] := by
  induction m with
  | nil => rfl
  | cons e m ih =>
    obtain ⟨ke, ve⟩ := e
    by_cases hk : ke = k
    · simp [GoMap.get?, hk] at h
    · simp only [GoMap.get?, hk, if_false] at h
      simp [GoMap.set, hk, ih h]

theorem GoMap.get?_eq_none_iff {V : Type} (m : GoMap V) (k : String) :
    m.get? k = none ↔ k ∉ m.map Prod.fst := by
  induction m with
  | nil => simp [GoMap.get?]
  | cons e m ih =>
    obtain ⟨ke, ve⟩ := e
    by_cases hk : ke = k
    · simp [GoMap.get?, hk]
    · have hk' : ¬ k = ke := fun e => hk e.symm
      simp only [GoMap.get?, hk, if_false, ih, List.map_cons, List.mem_cons, hk', false_or]

theorem GoMap.get?_of_mem {V : Type} (m : GoMap V) (k : String) (v : V)
    (hnd : (m.map Prod.fst).Nodup) (hmem : (k, v) ∈ m) : m.get? k = some v := by
  induction m with
  | nil => simp at hmem
  | cons e m ih =>
    obtain ⟨ke, ve⟩ := e
    rw [List.map_cons, List.nodup_cons] at hnd
    rcases List.mem_cons.mp hmem with h | h
    · cases h
      simp [GoMap.get?]
    · have hin : k ∈ m.map Prod.fst := List.mem_map.mpr ⟨(k, v), h, rfl⟩
      have hk : ¬ ke = k := fun e => hnd.1 (e ▸ hin)
      simp only [GoMap.get?, hk, if_false]
      exact ih hnd.2 h

/-- Assigning, one after the other, entries whose keys are distinct and new
appends them. -/
theorem GoMap.foldl_set_fresh {V A : Type} (key : A → String) (val : A → V) (l : List A) :
    ∀ acc : GoMap V, ((acc.map Prod.fst) ++ l.map key).Nodup →
      l.foldl (fun m a => m.set (key a) (val a)) acc = acc ++ l.map fun a => (key a, val a) := by
  induction l with
  | nil => intro acc _; simp
  | cons a l ih =>
    intro acc hnd
    have hfresh : acc.get? (key a) = none := by
      rw [GoMap.get?_eq_none_iff]
      intro hin
      have := (List.nodup_append.mp hnd).2.2
      exact this hin (by simp) 
    rw [List.foldl_cons, GoMap.set_of_get?_none _ _ _ hfresh, ih]
    · simp
    · simpa [List.map_append, List.append_assoc] using hnd

/-! ## C1: `findOkArea` keeps one entry per record -/

/-- C1. When the composite keys `time_no + sname` of the decoded Area records are
pairwise distinct, `findOkArea` returns a map with exactly as many entries as
there are records, the lookup of every record's key yields the AreaInfo with
that record's id, sname and stock_id, and no other key is present. -/
theorem findOkArea_one_entry_per_record
    (fetch : String → String → Except String (List Area)) (baseurl date : String)
    (object : List Area) (hfetch : fetch baseurl date = .ok object)
    (hkeys : object.Pairwise (fun a b => a.key ≠ b.key)) :
    ∃ areaMap, findOkArea fetch baseurl date = .ok areaMap ∧
      areaMap.len = object.length ∧
      (∀ a ∈ object, areaMap.get? (a.Stock.TimeNo ++ a.SName) = some ⟨a.ID, a.SName, a.StockID⟩) ∧
      (∀ k, areaMap.get? k ≠ none → ∃ a ∈ object, k = a.Stock.TimeNo ++ a.SName) := by
  have hnd : (object.map Area.key).Nodup := by
    rw [List.Nodup, List.pairwise_map]
    exact hkeys
  have hfold := GoMap.foldl_set_fresh Area.key Area.info object [] (by simpa using hnd)
  refine ⟨object.map fun a => (a.key, a.info), ?_, ?_, ?_, ?_⟩
  · simp only [findOkArea, hfetch]
    exact congrArg Except.ok (by simpa [Area.key, Area.info] using hfold)
  · simp [GoMap.len]
  · intro a ha
    apply GoMap.get?_of_mem
    · simpa [List.map_map, Function.comp_def] using hnd
    · exact List.mem_map.mpr ⟨a, ha, rfl⟩
  · intro k hk
    rw [Ne, GoMap.get?_eq_none_iff, not_not] at hk
    simp only [List.map_map, List.mem_map, Function.comp_def] at hk
    obtain ⟨a, ha, rfl⟩ := hk
    exact ⟨a, ha, rfl⟩

/-- C1 at a response of three records with distinct keys. -/
theorem findOkArea_one_entry_per_record_witness :
    ∃ areaMap,
      findOkArea (fun _ _ => .ok [⟨"场地1", ⟨"14:01-15:00"⟩, 4021, 77⟩,
        ⟨"场地2", ⟨"14:01-15:00"⟩, 4022, 78⟩, ⟨"场地1", ⟨"15:01-16:00"⟩, 4031, 77⟩])
        "http://ydfwpt.cug.edu.cn/find" "2024-05-01" = .ok areaMap ∧
      areaMap.len = 3 ∧
      areaMap.get? "14:01-15:00场地2" = some ⟨78, "场地2", 4022⟩ :=
  let object : List Area := [⟨"场地1", ⟨"14:01-15:00"⟩, 4021, 77⟩,
    ⟨"场地2", ⟨"14:01-15:00"⟩, 4022, 78⟩, ⟨"场地1", ⟨"15:01-16:00"⟩, 4031, 77⟩]
  match findOkArea_one_entry_per_record (fun _ _ => .ok object)
      "http://ydfwpt.cug.edu.cn/find" "2024-05-01" object rfl (by decide) with
  | ⟨areaMap, h, hlen, hget, _⟩ =>
    ⟨areaMap, h, hlen, hget ⟨"场地2", ⟨"14:01-15:00"⟩, 4022, 78⟩ (by decide)⟩

/-! ## Lemmas on the integer verbs -/

theorem digitChar_eq_natDigitChar (d : Nat) (h : d < 10) : digitChar d = Nat.digitChar d := by
  interval_cases d <;> rfl

theorem fmtDigits_append_eq_toDigitsCore :
    ∀ (fuel u : Nat) (ds : List Char), u < fuel →
      fmtDigits fuel u ++ ds = Nat.toDigitsCore 10 fuel u ds := by
  intro fuel
  induction fuel with
  | zero => intro u ds h; omega
  | succ fuel ih =>
    intro u ds h
    by_cases hu : u < 10
    · have h0 : u / 10 = 0 := by omega
      have hm : u % 10 = u := by omega
      simp [fmtDigits, Nat.toDigitsCore, hu, h0, hm, digitChar_eq_natDigitChar u hu]
    · have h0 : ¬ u / 10 = 0 := by omega
      have hlt : u / 10 < fuel := by omega
      have hm : u % 10 < 10 := by omega
      simp only [fmtDigits, Nat.toDigitsCore, hu, h0, if_false, List.append_assoc,
        List.singleton_append]
      rw [ih (u / 10) _ hlt, digitChar_eq_natDigitChar _ hm]

theorem fmtInteger_zero_ofNat (n : Nat) : fmtInteger 0 (n : Int) = Nat.repr n := by
  have h0 : ¬ ((n : Int) < 0) := by omega
  have h := fmtDigits_append_eq_toDigitsCore (n + 1) n [] (by omega)
  rw [List.append_nil] at h
  simp [fmtInteger, h0, zeroPad, Nat.repr, Nat.toDigits, h, List.asString]

/-- The payload of `getOrderData` is nil exactly when the key that the target
derives is not in the availability mapping. -/
theorem getOrderData_payload_none_iff (ro : RangeOrder) (target : TargetConfig)
    (cookies : GoMap String) (okAreaDict : GoMap AreaInfo) :
    (getOrderData ro target cookies okAreaDict).2 = none ↔
      okAreaDict.get? (targetTimeStr target ++ targetName target) = none := by
  unfold getOrderData
  cases h : okAreaDict.get? (targetTimeStr target ++ targetName target) <;> simp

/-! ## C2: the labels that make the lookup key -/

/-- C2. For an hour `h` in 0..23 and an area number `n ≥ 0`, the time-range label
that `getOrderData` derives is `h` as two zero-padded digits, `:01-`, `h+1` as two
zero-padded digits, `:00`; the area label is `场地` followed by the decimal digits
of `n`; and the payload is nil exactly when the concatenation of the two is
absent from the availability mapping, so that is the key looked up.  For
`Target{time=14, number=3}` the labels are `14:01-15:00` and `场地3`. -/
theorem getOrderData_lookup_key (h n : Int) (h0 : 0 ≤ h) (h23 : h ≤ 23) (hn : 0 ≤ n) :
    targetTimeStr ⟨h, n⟩ = twoDigits h.toNat ++ ":01-" ++ twoDigits (h.toNat + 1) ++ ":00" ∧
    targetName ⟨h, n⟩ = "场地" ++ Nat.repr n.toNat ∧
    (∀ (ro : RangeOrder) (cookies : GoMap String) (okAreaDict : GoMap AreaInfo),
      (getOrderData ro ⟨h, n⟩ cookies okAreaDict).2 = none ↔
        okAreaDict.get? (timeRangeLabel h.toNat ++ areaLabel n.toNat) = none) ∧
    targetTimeStr ⟨14, 3⟩ = "14:01-15:00" ∧ targetName ⟨14, 3⟩ = "场地3" := by
  have htime : targetTimeStr ⟨h, n⟩ = timeRangeLabel h.toNat := by
    simp only [targetTimeStr, timeRangeLabel]
    interval_cases h <;> decide
  have hname : targetName ⟨h, n⟩ = areaLabel n.toNat := by
    obtain ⟨m, rfl⟩ := Int.eq_ofNat_of_zero_le hn
    simp only [targetName, areaLabel, Int.toNat_ofNat, fmtInteger_zero_ofNat]
  refine ⟨htime, hname, ?_, by decide, by decide⟩
  intro ro cookies okAreaDict
  rw [getOrderData_payload_none_iff, htime, hname]

/-- C2 at `Target{time=14, number=3}` and an availability mapping that holds
the key `14:01-15:00场地3`. -/
theorem getOrderData_lookup_key_witness :
    targetTimeStr ⟨14, 3⟩ = "14:01-15:00" ∧ targetName ⟨14, 3⟩ = "场地3" ∧
    timeRangeLabel 14 ++ areaLabel 3 = "14:01-15:00场地3" ∧
    (getOrderData RangeOrder.id ⟨14, 3⟩ [] [("14:01-15:00场地3", ⟨77, "场地3", 4021⟩)]).2 ≠ none :=
  have key := getOrderData_lookup_key 14 3 (by decide) (by decide) (by decide)
  ⟨key.2.2.2.1, key.2.2.2.2, by decide,
   fun hnone => by
     have := (key.2.2.1 RangeOrder.id [] [("14:01-15:00场地3", ⟨77, "场地3", 4021⟩)]).mp hnone
     revert this
     decide⟩

/-! ## Lemmas for reading a formatted integer back -/

theorem digitChar_spec (d : Nat) (h : d < 10) :
    digitVal (digitChar d) = d ∧ digitChar d ≠ '-' ∧ digitChar d ≠ ':' := by
  interval_cases d <;> decide

theorem parseDigits_snoc (l : List Char) (c : Char) :
    parseDigits (l ++ [c]) = parseDigits l * 10 + digitVal c := by
  simp [parseDigits, List.foldl_append]

theorem parseDigits_fmtDigits :
    ∀ (fuel u : Nat), u < fuel → parseDigits (fmtDigits fuel u) = u := by
  intro fuel
  induction fuel with
  | zero => intro u h; omega
  | succ fuel ih =>
    intro u h
    by_cases hu : u < 10
    · simp [fmtDigits, hu, parseDigits, (digitChar_spec u hu).1]
    · have hlt : u / 10 < fuel := by omega
      have hm : u % 10 < 10 := by omega
      simp only [fmtDigits, hu, if_false, parseDigits_snoc, ih _ hlt, (digitChar_spec _ hm).1]
      omega

theorem fmtDigits_chars :
    ∀ (fuel u : Nat), ∀ c ∈ fmtDigits fuel u, c ≠ '-' ∧ c ≠ ':' := by
  intro fuel
  induction fuel with
  | zero => intro u c hc; simp [fmtDigits] at hc
  | succ fuel ih =>
    intro u c hc
    by_cases hu : u < 10
    · simp only [fmtDigits, hu, if_true, List.mem_singleton] at hc
      subst hc
      exact (digitChar_spec u hu).2
    · have hm : u % 10 < 10 := by omega
      simp only [fmtDigits, hu, if_false, List.mem_append, List.mem_singleton] at hc
      rcases hc with hc | hc
      · exact ih _ c hc
      · subst hc
        exact (digitChar_spec _ hm).2

theorem parseDigits_zeroPad (prec : Nat) (ds : List Char) :
    parseDigits (zeroPad prec ds) = parseDigits ds := by
  unfold zeroPad
  generalize prec - ds.length = k
  induction k with
  | zero => simp
  | succ k ih =>
    have h0 : digitVal '0' = 0 := by decide
    simp only [parseDigits, List.replicate_succ, List.cons_append, List.foldl_cons, h0] at ih ⊢
    exact ih

theorem zeroPad_chars (prec : Nat) (ds : List Char) (h : ∀ c ∈ ds, c ≠ '-' ∧ c ≠ ':') :
    ∀ c ∈ zeroPad prec ds, c ≠ '-' ∧ c ≠ ':' := by
  intro c hc
  simp only [zeroPad, List.mem_append, List.mem_replicate] at hc
  rcases hc with ⟨_, rfl⟩ | hc
  · decide
  · exact h c hc

/-- The verb `%0<wid>d` writes different integers differently. -/
theorem fmtInteger_injective (wid : Nat) (a b : Int)
    (h : fmtInteger wid a = fmtInteger wid b) : a = b := by
  have hpa : ∀ w, parseDigits (zeroPad w (fmtDigits (a.natAbs + 1) a.natAbs)) = a.natAbs :=
    fun w => by rw [parseDigits_zeroPad, parseDigits_fmtDigits _ _ (by omega)]
  have hpb : ∀ w, parseDigits (zeroPad w (fmtDigits (b.natAbs + 1) b.natAbs)) = b.natAbs :=
    fun w => by rw [parseDigits_zeroPad, parseDigits_fmtDigits _ _ (by omega)]
  have hca := fun w => zeroPad_chars w _ (fmtDigits_chars (a.natAbs + 1) a.natAbs)
  have hcb := fun w => zeroPad_chars w _ (fmtDigits_chars (b.natAbs + 1) b.natAbs)
  by_cases ha : a < 0 <;> by_cases hb : b < 0
  · replace h := congrArg String.data h
    simp only [fmtInteger, ha, hb, if_true, List.cons.injEq, true_and] at h
    have := congrArg parseDigits h
    rw [hpa, hpb] at this
    omega
  · replace h := congrArg String.data h
    simp only [fmtInteger, ha, hb, if_true, if_false] at h
    have hmem : '-' ∈ zeroPad wid (fmtDigits (b.natAbs + 1) b.natAbs) := by
      rw [← h]; exact List.mem_cons_self _ _
    exact absurd rfl (hcb wid _ hmem).1
  · replace h := congrArg String.data h
    simp only [fmtInteger, ha, hb, if_true, if_false] at h
    have hmem : '-' ∈ zeroPad wid (fmtDigits (a.natAbs + 1) a.natAbs) := by
      rw [h]; exact List.mem_cons_self _ _
    exact absurd rfl (hca wid _ hmem).1
  · replace h := congrArg String.data h
    simp only [fmtInteger, ha, hb, if_false] at h
    have := congrArg parseDigits h
    rw [hpa, hpb] at this
    omega

theorem fmtInteger_no_colon (wid : Nat) (a : Int) : ':' ∉ (fmtInteger wid a).data := by
  intro hmem
  have hca := fun w => zeroPad_chars w _ (fmtDigits_chars (a.natAbs + 1) a.natAbs)
  by_cases ha : a < 0
  · simp only [fmtInteger, ha, if_true, List.mem_cons] at hmem
    rcases hmem with hmem | hmem
    · exact absurd hmem (by decide)
    · exact absurd rfl (hca _ _ hmem).2
  · simp only [fmtInteger, ha, if_false] at hmem
    exact absurd rfl (hca _ _ hmem).2

/-- Two texts that agree, each cut at its first occurrence of `c`, have the same
part before the cut and the same part after it. -/
theorem List.eq_of_append_cons_eq {α : Type} (c : α) :
    ∀ (l₁ l₂ r₁ r₂ : List α), c ∉ l₁ → c ∉ l₂ → l₁ ++ c :: r₁ = l₂ ++ c :: r₂ →
      l₁ = l₂ ∧ r₁ = r₂ := by
  intro l₁
  induction l₁ with
  | nil =>
    intro l₂ r₁ r₂ _ h₂ h
    cases l₂ with
    | nil => simpa using h
    | cons x l₂ =>
      simp only [List.nil_append, List.cons_append, List.cons.injEq] at h
      exact absurd (h.1 ▸ List.mem_cons_self _ _) h₂
  | cons x l₁ ih =>
    intro l₂ r₁ r₂ h₁ h₂ h
    cases l₂ with
    | nil =>
      simp only [List.nil_append, List.cons_append, List.cons.injEq] at h
      exact absurd (h.1 ▸ List.mem_cons_self _ _) h₁
    | cons y l₂ =>
      simp only [List.cons_append, List.cons.injEq] at h
      have := ih l₂ r₁ r₂ (fun hm => h₁ (List.mem_cons_of_mem _ hm))
        (fun hm => h₂ (List.mem_cons_of_mem _ hm)) h.2
      exact ⟨by rw [h.1, this.1], this.2⟩

/-! ## C10: the lookup key is injective in the target -/

/-- C10. The key that `getOrderData` derives from a target,
`Sprintf("%02d:01-%02d:00", time, time+1) + Sprintf("场地%d", number)`, is the same
for two targets if and only if they have the same time and the same number. -/
theorem targetKey_injective (time₁ number₁ time₂ number₂ : Int) :
    targetTimeStr ⟨time₁, number₁⟩ ++ targetName ⟨time₁, number₁⟩ =
        targetTimeStr ⟨time₂, number₂⟩ ++ targetName ⟨time₂, number₂⟩ ↔
      time₁ = time₂ ∧ number₁ = number₂ := by
  constructor
  · intro h
    have hd := congrArg String.data h
    simp only [targetTimeStr, targetName, String.data_append, List.append_assoc] at hd
    simp only [List.cons_append, List.nil_append] at hd
    have hsplit := List.eq_of_append_cons_eq ':' _ _ _ _
      (fmtInteger_no_colon 2 time₁) (fmtInteger_no_colon 2 time₂) hd
    have ht : time₁ = time₂ := fmtInteger_injective 2 _ _ (String.ext hsplit.1)
    subst ht
    have hrest := hsplit.2
    simp only [List.cons.injEq, true_and, List.append_cancel_left_eq] at hrest
    exact ⟨rfl, fmtInteger_injective 0 _ _ (String.ext hrest)⟩
  · rintro ⟨rfl, rfl⟩
    rfl

/-! ## C9: the headers of the order request -/

theorem foldl_snoc_eq_map {A B : Type} (f : A → B) (l : List A) :
    ∀ acc : List B, l.foldl (fun parts a => parts ++ [f a]) acc = acc ++ l.map f := by
  induction l with
  | nil => intro acc; simp
  | cons a l ih => intro acc; simp [ih]

/-- The headers that `getOrderData` returns, whatever the target and the
availability mapping: the fixed headers in the order they were visited, then
the Cookie header. -/
theorem getOrderData_headers (ro : RangeOrder) (target : TargetConfig)
    (cookies : GoMap String) (okAreaDict : GoMap AreaInfo) :
    (getOrderData ro target cookies okAreaDict).1 =
      ro.order BASIC_HEADERS ++
        [("Cookie", "; ".intercalate ((ro.order cookies).map fun kv => kv.1 ++ "=" ++ kv.2))] := by
  have hperm := ro.perm BASIC_HEADERS
  have hnd : ((ro.order BASIC_HEADERS).map Prod.fst).Nodup :=
    ((hperm.map Prod.fst).nodup_iff).mpr (by decide)
  have hfold := GoMap.foldl_set_fresh (V := String) Prod.fst Prod.snd (ro.order BASIC_HEADERS) []
    (by simpa using hnd)
  have hcookie : "Cookie" ∉ (ro.order BASIC_HEADERS).map Prod.fst := by
    intro hin
    have := (hperm.map Prod.fst).mem_iff.mp hin
    revert this
    decide
  have hset := GoMap.set_of_get?_none (ro.order BASIC_HEADERS) "Cookie"
    ("; ".intercalate ((ro.order cookies).map fun kv => kv.1 ++ "=" ++ kv.2))
    ((GoMap.get?_eq_none_iff _ _).mpr hcookie)
  have hparts := foldl_snoc_eq_map (fun kv : String × String => kv.1 ++ "=" ++ kv.2)
    (ro.order cookies) []
  simp only [List.nil_append, Prod.mk.eta, List.map_id_fun, id_eq, List.map_id,
    List.map_id'] at hfold hparts
  unfold getOrderData
  cases okAreaDict.get? (targetTimeStr target ++ targetName target) <;>
    simp only [hfold, hparts, hset]

/-- C9. The headers returned by `getOrderData` are the six fixed `BASIC_HEADERS`
entries with their fixed values plus one Cookie entry, and nothing else; the
Cookie value is the `name=value` items of the entries of the cookie mapping,
each entry once, in some order, joined by `; `, and is empty for an empty cookie
mapping.  This holds for every target and availability mapping, the key present
or not. -/
theorem getOrderData_headers_fixed_plus_cookie (ro : RangeOrder) (target : TargetConfig)
    (cookies : GoMap String) (okAreaDict : GoMap AreaInfo) :
    BASIC_HEADERS.len = 6 ∧
    (getOrderData ro target cookies okAreaDict).1.len = 7 ∧
    (∀ kv ∈ BASIC_HEADERS, (getOrderData ro target cookies okAreaDict).1.get? kv.1 = some kv.2) ∧
    (∀ k, (getOrderData ro target cookies okAreaDict).1.get? k ≠ none →
      k = "Cookie" ∨ k ∈ BASIC_HEADERS.map Prod.fst) ∧
    (∃ entries : List (String × String), entries.Perm cookies ∧
      (getOrderData ro target cookies okAreaDict).1.get? "Cookie" =
        some ("; ".intercalate (entries.map fun kv => kv.1 ++ "=" ++ kv.2))) ∧
    ((getOrderData ro target [] okAreaDict).1.get? "Cookie" = some "") := by
  have hperm := ro.perm BASIC_HEADERS
  have hkeys : (((ro.order BASIC_HEADERS) ++ [("Cookie", "; ".intercalate
      ((ro.order cookies).map fun kv => kv.1 ++ "=" ++ kv.2))]).map Prod.fst).Nodup := by
    rw [List.map_append]
    refine ((hperm.map Prod.fst).append_right _).nodup_iff.mpr ?_
    simp only [List.map_cons, List.map_nil]
    decide
  refine ⟨rfl, ?_, ?_, ?_, ⟨ro.order cookies, ro.perm cookies, ?_⟩, ?_⟩
  · rw [getOrderData_headers, GoMap.len, List.length_append, hperm.length_eq]
    rfl
  · intro kv hkv
    rw [getOrderData_headers]
    exact GoMap.get?_of_mem _ _ _ hkeys
      (List.mem_append_left _ (hperm.mem_iff.mpr hkv))
  · intro k hk
    rw [getOrderData_headers, Ne, GoMap.get?_eq_none_iff, not_not, List.map_append,
      List.mem_append] at hk
    rcases hk with hk | hk
    · exact Or.inr ((hperm.map Prod.fst).mem_iff.mp hk)
    · exact Or.inl (by simpa using hk)
  · rw [getOrderData_headers]
    exact GoMap.get?_of_mem _ _ _ hkeys (List.mem_append_right _ (List.mem_singleton_self _))
  · have hnil : ro.order [] = [] := List.Perm.eq_nil (ro.perm [])
    have hkeys' : (((ro.order BASIC_HEADERS) ++ [("Cookie", "")]).map Prod.fst).Nodup := by
      rw [List.map_append]
      refine ((hperm.map Prod.fst).append_right _).nodup_iff.mpr ?_
      decide
    rw [getOrderData_headers, hnil]
    exact GoMap.get?_of_mem _ _ _ hkeys'
      (List.mem_append_right _ (List.mem_singleton_self _))

/-- C9 at a cookie mapping of two entries visited in reverse order. -/
theorem getOrderData_headers_fixed_plus_cookie_witness :
    (getOrderData RangeOrder.rev ⟨14, 3⟩ [("JSESSIONID", "abc"), ("u", "1")] []).1.len = 7 ∧
    (getOrderData RangeOrder.rev ⟨14, 3⟩ [("JSESSIONID", "abc"), ("u", "1")] []).1.get? "Host" =
      some "ydfwpt.cug.edu.cn" ∧
    (getOrderData RangeOrder.rev ⟨14, 3⟩ [("JSESSIONID", "abc"), ("u", "1")] []).1.get? "Cookie" =
      some "u=1; JSESSIONID=abc" :=
  have h := getOrderData_headers_fixed_plus_cookie RangeOrder.rev ⟨14, 3⟩
    [("JSESSIONID", "abc"), ("u", "1")] []
  ⟨h.2.1, h.2.2.1 ("Host", "ydfwpt.cug.edu.cn") (by decide), by decide⟩

/-! ## C3: a target whose key is absent -/

/-- C3. When the composite key of the target (time-range label + area label) is
absent from the availability mapping, `getOrderData` returns a nil payload, and
`order` returns success=false with a non-nil error, sends no request and leaves
the outside world as it was. -/
theorem order_key_absent_no_request {σ : Type} (ro : RangeOrder) (net : Client σ)
    (config : Config) (target : TargetConfig) (cookies : GoMap String)
    (okAreaDict : GoMap AreaInfo) (w : σ)
    (habsent : okAreaDict.get? (targetTimeStr target ++ targetName target) = none) :
    (getOrderData ro target cookies okAreaDict).2 = none ∧
    payloadLen (getOrderData ro target cookies okAreaDict).2 = 0 ∧
    (order ro net config target cookies okAreaDict w).success = false ∧
    (order ro net config target cookies okAreaDict w).err ≠ none ∧
    (order ro net config target cookies okAreaDict w).sent = [] ∧
    (order ro net config target cookies okAreaDict w).world = w := by
  have hnil : (getOrderData ro target cookies okAreaDict).2 = none :=
    (getOrderData_payload_none_iff ro target cookies okAreaDict).mpr habsent
  simp [order, hnil, payloadLen]

/-- C3 at the target 14/4 and an availability mapping that only holds area 3,
with a network that would confirm any order. -/
theorem order_key_absent_no_request_witness :
    GoMap.get? exampleAreas (targetTimeStr ⟨14, 4⟩ ++ targetName ⟨14, 4⟩) = none ∧
    (order RangeOrder.id (scriptedClient [⟨200, "", "预订成功"⟩]) (exampleConfig []) ⟨14, 4⟩
      [("JSESSIONID", "abc")] exampleAreas 0).success = false ∧
    (order RangeOrder.id (scriptedClient [⟨200, "", "预订成功"⟩]) (exampleConfig []) ⟨14, 4⟩
      [("JSESSIONID", "abc")] exampleAreas 0).sent = [] ∧
    (order RangeOrder.id (scriptedClient [⟨200, "", "预订成功"⟩]) (exampleConfig []) ⟨14, 4⟩
      [("JSESSIONID", "abc")] exampleAreas 0).world = 0 :=
  have h := order_key_absent_no_request RangeOrder.id (scriptedClient [⟨200, "", "预订成功"⟩])
    (exampleConfig []) ⟨14, 4⟩ [("JSESSIONID", "abc")] exampleAreas 0 (by decide)
  ⟨by decide, h.2.2.1, h.2.2.2.2.1, h.2.2.2.2.2⟩

/-! ## Lemmas on the JSON encoding -/

theorem flatMap_eq_self {α : Type} (f : α → List α) (l : List α) (h : ∀ c ∈ l, f c = [c]) :
    l.flatMap f = l := by
  induction l with
  | nil => rfl
  | cons c l ih =>
    rw [List.flatMap_cons, h c (List.mem_cons_self _ _),
      ih (fun d hd => h d (List.mem_cons_of_mem _ hd))]
    rfl

theorem digitChar_plain (d : Nat) (h : d < 10) : jsonEscapeChar (digitChar d) = [digitChar d] := by
  interval_cases d <;> decide

theorem fmtDigits_plain :
    ∀ (fuel u : Nat), ∀ c ∈ fmtDigits fuel u, jsonEscapeChar c = [c] := by
  intro fuel
  induction fuel with
  | zero => intro u c hc; simp [fmtDigits] at hc
  | succ fuel ih =>
    intro u c hc
    by_cases hu : u < 10
    · simp only [fmtDigits, hu, if_true, List.mem_singleton] at hc
      subst hc
      exact digitChar_plain u hu
    · have hm : u % 10 < 10 := by omega
      simp only [fmtDigits, hu, if_false, List.mem_append, List.mem_singleton] at hc
      rcases hc with hc | hc
      · exact ih _ c hc
      · subst hc
        exact digitChar_plain _ hm

/-- A formatted integer holds no character that JSON escapes. -/
theorem jsonEscape_fmtInteger (wid : Nat) (v : Int) :
    jsonEscape (fmtInteger wid v) = fmtInteger wid v := by
  apply String.ext
  apply flatMap_eq_self
  intro c hc
  have hpad : ∀ w, ∀ c ∈ zeroPad w (fmtDigits (v.natAbs + 1) v.natAbs), jsonEscapeChar c = [c] := by
    intro w c hc
    simp only [zeroPad, List.mem_append, List.mem_replicate] at hc
    rcases hc with ⟨_, rfl⟩ | hc
    · decide
    · exact fmtDigits_plain _ _ c hc
  by_cases hv : v < 0
  · simp only [fmtInteger, hv, if_true, List.mem_cons] at hc
    rcases hc with rfl | hc
    · decide
    · exact hpad _ c hc
  · simp only [fmtInteger, hv, if_false] at hc
    exact hpad _ c hc

theorem jsonEscape_append (a b : String) : jsonEscape (a ++ b) = jsonEscape a ++ jsonEscape b := by
  apply String.ext
  simp [jsonEscape, String.data_append, List.flatMap_append]

theorem marshalParam_text (stock area : String)
    (hs : jsonEscape stock = stock) (ha : jsonEscape area = area) :
    marshalParam [("stockdetail", .strMap [(stock, area)]), ("serviceid", .str "1"),
      ("stockid", .str (stock ++ ",")), ("remark", .str "")] = paramText stock area := by
  have hsort : sortByKey [("stockdetail", ParamValue.strMap [(stock, area)]),
      ("serviceid", .str "1"), ("stockid", .str (stock ++ ",")), ("remark", .str "")] =
      [("remark", .str ""), ("serviceid", .str "1"), ("stockdetail", .strMap [(stock, area)]),
       ("stockid", .str (stock ++ ","))] := rfl
  have hone : sortByKey [(stock, area)] = [(stock, area)] := rfl
  have e1 : jsonEscape "remark" = "remark" := by decide
  have e2 : jsonEscape "serviceid" = "serviceid" := by decide
  have e3 : jsonEscape "stockdetail" = "stockdetail" := by decide
  have e4 : jsonEscape "stockid" = "stockid" := by decide
  have e5 : jsonEscape "" = "" := by decide
  have e6 : jsonEscape "1" = "1" := by decide
  have e7 : jsonEscape "," = "," := by decide
  apply String.ext
  simp only [marshalParam, hsort, hone, List.map, marshalParamValue, marshalStringMap, jsonObject,
    String.intercalate, String.intercalate.go, jsonString, jsonEscape_append, hs, ha,
    e1, e2, e3, e4, e5, e6, e7, paramText, String.data_append, quoteChar]
  simp

theorem marshalPayload_text (stock area : String)
    (hs : jsonEscape stock = stock) (ha : jsonEscape area = area) :
    marshalStringMap [("param", paramText stock area), ("num", "1"), ("json", "true")] =
      payloadText stock area := by
  have hsort : sortByKey [("param", paramText stock area), ("num", "1"), ("json", "true")] =
      [("json", "true"), ("num", "1"), ("param", paramText stock area)] := rfl
  have e1 : jsonEscape "json" = "json" := by decide
  have e2 : jsonEscape "true" = "true" := by decide
  have e3 : jsonEscape "num" = "num" := by decide
  have e4 : jsonEscape "1" = "1" := by decide
  have e5 : jsonEscape "param" = "param" := by decide
  have p1 : jsonEscape "\x7b\"remark\":\"\",\"serviceid\":\"1\",\"stockdetail\":\x7b\"" =
      "\x7b\\\"remark\\\":\\\"\\\",\\\"serviceid\\\":\\\"1\\\",\\\"stockdetail\\\":\x7b\\\"" := by
    decide
  have p2 : jsonEscape "\":\"" = "\\\":\\\"" := by decide
  have p3 : jsonEscape "\"\x7d,\"stockid\":\"" = "\\\"\x7d,\\\"stockid\\\":\\\"" := by decide
  have p4 : jsonEscape ",\"\x7d" = ",\\\"\x7d" := by decide
  apply String.ext
  simp only [marshalStringMap, hsort, List.map, jsonObject, String.intercalate,
    String.intercalate.go, jsonString, paramText, jsonEscape_append, hs, ha,
    e1, e2, e3, e4, e5, p1, p2, p3, p4, payloadText, String.data_append, quoteChar]
  simp

theorem fmtInteger_zero_eq_toString (v : Int) : fmtInteger 0 v = toString v := by
  cases v with
  | ofNat n => exact fmtInteger_zero_ofNat n
  | negSucc n =>
    have hneg : Int.negSucc n < 0 := Int.negSucc_lt_zero n
    have habs : (Int.negSucc n).natAbs = n + 1 := rfl
    have h := fmtDigits_append_eq_toDigitsCore (n + 1 + 1) (n + 1) [] (by omega)
    rw [List.append_nil] at h
    apply String.ext
    show (fmtInteger 0 (Int.negSucc n)).data = ("-" ++ Nat.repr (n + 1)).data
    simp [fmtInteger, hneg, habs, zeroPad, h, Nat.repr, Nat.toDigits, List.asString,
      String.data_append]

theorem payloadText_ne_empty (stock area : String) :
    (payloadText stock area).utf8ByteSize ≠ 0 := by
  have h : ∀ (c : Char) (cs : List Char), (String.mk (c :: cs)).utf8ByteSize ≠ 0 := by
    intro c cs
    have := c.utf8Size_pos
    simp only [String.utf8ByteSize, String.utf8ByteSize.go]
    omega
  have hne : (payloadText stock area).data ≠ [] := by
    simp [payloadText, String.data_append]
  generalize payloadText stock area = s at hne
  obtain ⟨data⟩ := s
  cases data with
  | nil => exact absurd rfl hne
  | cons c cs => exact h c cs

/-- The payload of a target whose key is present is not empty. -/
theorem getOrderData_payloadLen_of_present (ro : RangeOrder) (target : TargetConfig)
    (cookies : GoMap String) (okAreaDict : GoMap AreaInfo)
    (hpresent : okAreaDict.get? (targetTimeStr target ++ targetName target) ≠ none) :
    payloadLen (getOrderData ro target cookies okAreaDict).2 ≠ 0 := by
  cases hget : okAreaDict.get? (targetTimeStr target ++ targetName target) with
  | none => exact absurd hget hpresent
  | some areaData =>
    have hs : jsonEscape (toString areaData.StockID) = toString areaData.StockID := by
      rw [← fmtInteger_zero_eq_toString]; exact jsonEscape_fmtInteger 0 _
    have ha : jsonEscape (toString areaData.ID) = toString areaData.ID := by
      rw [← fmtInteger_zero_eq_toString]; exact jsonEscape_fmtInteger 0 _
    have hobj : (getOrderData ro target cookies okAreaDict).2 =
        some (marshalStringMap
          [("param", marshalParam
              [("stockdetail", .strMap [(toString areaData.StockID, toString areaData.ID)]),
               ("serviceid", .str "1"),
               ("stockid", .str (toString areaData.StockID ++ ",")),
               ("remark", .str "")]),
           ("num", "1"), ("json", "true")]) := by
      unfold getOrderData
      simp only [hget, fmtInteger_zero_eq_toString]
      rfl
    rw [hobj, marshalParam_text _ _ hs ha, marshalPayload_text _ _ hs ha]
    exact payloadText_ne_empty _ _

/-! ## C4: the payload of a target whose key is present -/

/-- C4. When the composite key of the target is present in the availability
mapping with an AreaInfo of id `a` and stock_id `s`, the payload returned by
`getOrderData` is the JSON encoding of the object with exactly the members
`param`, `num` = `"1"` and `json` = `"true"`, where `param` is the JSON encoding,
as a string, of the object with exactly the members `stockdetail` = the object
with the single member decimal(`s`) = decimal(`a`), `serviceid` = `"1"`,
`stockid` = decimal(`s`) followed by a comma, and `remark` = `""`; byte for byte
it is `payloadText`, and it is not empty. -/
theorem getOrderData_payload_present (ro : RangeOrder) (target : TargetConfig)
    (cookies : GoMap String) (okAreaDict : GoMap AreaInfo) (areaData : AreaInfo)
    (hpresent : okAreaDict.get? (targetTimeStr target ++ targetName target) = some areaData) :
    (getOrderData ro target cookies okAreaDict).2 =
      some (marshalStringMap
        [("param", marshalParam
            [("stockdetail", .strMap [(toString areaData.StockID, toString areaData.ID)]),
             ("serviceid", .str "1"),
             ("stockid", .str (toString areaData.StockID ++ ",")),
             ("remark", .str "")]),
         ("num", "1"), ("json", "true")]) ∧
    (getOrderData ro target cookies okAreaDict).2 =
      some (payloadText (toString areaData.StockID) (toString areaData.ID)) ∧
    payloadLen (getOrderData ro target cookies okAreaDict).2 ≠ 0 := by
  have hs : jsonEscape (toString areaData.StockID) = toString areaData.StockID := by
    rw [← fmtInteger_zero_eq_toString]; exact jsonEscape_fmtInteger 0 _
  have ha : jsonEscape (toString areaData.ID) = toString areaData.ID := by
    rw [← fmtInteger_zero_eq_toString]; exact jsonEscape_fmtInteger 0 _
  have hobj : (getOrderData ro target cookies okAreaDict).2 =
      some (marshalStringMap
        [("param", marshalParam
            [("stockdetail", .strMap [(toString areaData.StockID, toString areaData.ID)]),
             ("serviceid", .str "1"),
             ("stockid", .str (toString areaData.StockID ++ ",")),
             ("remark", .str "")]),
         ("num", "1"), ("json", "true")]) := by
    unfold getOrderData
    simp only [hpresent, fmtInteger_zero_eq_toString]
    rfl
  have htext : (getOrderData ro target cookies okAreaDict).2 =
      some (payloadText (toString areaData.StockID) (toString areaData.ID)) := by
    rw [hobj, marshalParam_text _ _ hs ha, marshalPayload_text _ _ hs ha]
  refine ⟨hobj, htext, ?_⟩
  rw [htext]
  exact payloadText_ne_empty _ _

/-- C4 at the target 14/3 with the AreaInfo (id 77, stock_id 4021) under its
key: the payload is the text
`{"json":"true","num":"1","param":"{\"remark\":\"\",\"serviceid\":\"1\",\"stockdetail\":{\"4021\":\"77\"},\"stockid\":\"4021,\"}"}`. -/
theorem getOrderData_payload_present_witness :
    GoMap.get? [("14:01-15:00场地3", (⟨77, "场地3", 4021⟩ : AreaInfo))]
      (targetTimeStr ⟨14, 3⟩ ++ targetName ⟨14, 3⟩) = some ⟨77, "场地3", 4021⟩ ∧
    (getOrderData RangeOrder.id ⟨14, 3⟩ [("JSESSIONID", "abc")]
      [("14:01-15:00场地3", ⟨77, "场地3", 4021⟩)]).2 = some (payloadText "4021" "77") ∧
    payloadText "4021" "77" =
      "\x7b\"json\":\"true\",\"num\":\"1\",\"param\":\"\x7b\\\"remark\\\":\\\"\\\",\\\"serviceid\\\":\\\"1\\\",\\\"stockdetail\\\":\x7b\\\"4021\\\":\\\"77\\\"\x7d,\\\"stockid\\\":\\\"4021,\\\"\x7d\"\x7d" :=
  have h := getOrderData_payload_present RangeOrder.id ⟨14, 3⟩ [("JSESSIONID", "abc")]
    [("14:01-15:00场地3", ⟨77, "场地3", 4021⟩)] ⟨77, "场地3", 4021⟩ (by decide)
  ⟨by decide, h.2.1, by decide⟩

/-! ## C5: classification of the order response -/

/-- C5. When `order` has sent its request and `client.Do` has handed it a
response, the result depends on the `message` of the response only: for
`预订成功`, `未支付` and `本天预订数量超过限制` it is success=true with the non-nil error
`预订成功: ` followed by that message; for every other message, the empty one of
a body that does not decode included, it is success=false. -/
theorem order_classifies_by_message {σ : Type} (ro : RangeOrder) (net : Client σ)
    (config : Config) (target : TargetConfig) (cookies : GoMap String)
    (okAreaDict : GoMap AreaInfo) (w : σ) (resp : HttpResponse)
    (hpayload : payloadLen (getOrderData ro target cookies okAreaDict).2 ≠ 0)
    (hurl : net.newRequestErr config.APIs.Pay = none)
    (hresp : (clientDo net (orderRequest ro config (getOrderData ro target cookies okAreaDict).1
      (getOrderData ro target cookies okAreaDict).2) w).result = .ok resp) :
    ((resp.message = "预订成功" ∨ resp.message = "未支付" ∨
        resp.message = "本天预订数量超过限制") →
      (order ro net config target cookies okAreaDict w).success = true ∧
      (order ro net config target cookies okAreaDict w).err =
        some ("预订成功: " ++ resp.message) ∧
      (order ro net config target cookies okAreaDict w).err ≠ none) ∧
    (¬ (resp.message = "预订成功" ∨ resp.message = "未支付" ∨
        resp.message = "本天预订数量超过限制") →
      (order ro net config target cookies okAreaDict w).success = false) ∧
    (resp.message = "" → (order ro net config target cookies okAreaDict w).success = false) := by
  refine ⟨?_, ?_, ?_⟩
  · intro hmsg
    have hmsg' : resp.message = "未支付" ∨ resp.message = "预订成功" ∨
        resp.message = "本天预订数量超过限制" := by
      rcases hmsg with h | h | h
      · exact Or.inr (Or.inl h)
      · exact Or.inl h
      · exact Or.inr (Or.inr h)
    simp only [order, hpayload, hurl, hresp, if_false, if_pos hmsg']
    simp
  · intro hmsg
    have hmsg' : ¬ (resp.message = "未支付" ∨ resp.message = "预订成功" ∨
        resp.message = "本天预订数量超过限制") := by
      intro h
      rcases h with h | h | h
      · exact hmsg (Or.inr (Or.inl h))
      · exact hmsg (Or.inl h)
      · exact hmsg (Or.inr (Or.inr h))
    simp only [order, hpayload, hurl, hresp, if_false, if_neg hmsg']
  · intro hmsg
    have hno : ¬ (resp.message = "未支付" ∨ resp.message = "预订成功" ∨
        resp.message = "本天预订数量超过限制") := by
      rw [hmsg]; decide
    simp only [order, hpayload, hurl, hresp, if_false, if_neg hno]

/-- C5 at the four messages `未支付`, `座位已被预订`, the empty one and `预订成功`. -/
theorem order_classifies_by_message_witness :
    (order RangeOrder.id (scriptedClient [⟨200, "", "未支付"⟩]) (exampleConfig []) ⟨14, 3⟩ []
      exampleAreas 0).success = true ∧
    (order RangeOrder.id (scriptedClient [⟨200, "", "未支付"⟩]) (exampleConfig []) ⟨14, 3⟩ []
      exampleAreas 0).err = some "预订成功: 未支付" ∧
    (order RangeOrder.id (scriptedClient [⟨200, "", "座位已被预订"⟩]) (exampleConfig []) ⟨14, 3⟩ []
      exampleAreas 0).success = false ∧
    (order RangeOrder.id (scriptedClient []) (exampleConfig []) ⟨14, 3⟩ []
      exampleAreas 0).success = false ∧
    (order RangeOrder.id (scriptedClient [⟨200, "", "预订成功"⟩]) (exampleConfig []) ⟨14, 3⟩ []
      exampleAreas 0).success = true :=
  have h₁ := order_classifies_by_message RangeOrder.id (scriptedClient [⟨200, "", "未支付"⟩])
    (exampleConfig []) ⟨14, 3⟩ [] exampleAreas 0 ⟨200, "", "未支付"⟩
    (getOrderData_payloadLen_of_present _ _ _ _ (by decide)) rfl rfl
  have h₂ := order_classifies_by_message RangeOrder.id (scriptedClient [⟨200, "", "座位已被预订"⟩])
    (exampleConfig []) ⟨14, 3⟩ [] exampleAreas 0 ⟨200, "", "座位已被预订"⟩
    (getOrderData_payloadLen_of_present _ _ _ _ (by decide)) rfl rfl
  have h₃ := order_classifies_by_message RangeOrder.id (scriptedClient [])
    (exampleConfig []) ⟨14, 3⟩ [] exampleAreas 0 ⟨200, "", ""⟩
    (getOrderData_payloadLen_of_present _ _ _ _ (by decide)) rfl rfl
  have h₄ := order_classifies_by_message RangeOrder.id (scriptedClient [⟨200, "", "预订成功"⟩])
    (exampleConfig []) ⟨14, 3⟩ [] exampleAreas 0 ⟨200, "", "预订成功"⟩
    (getOrderData_payloadLen_of_present _ _ _ _ (by decide)) rfl rfl
  ⟨(h₁.1 (by decide)).1, (h₁.1 (by decide)).2.1, h₂.2.1 (by decide), h₃.2.2 rfl,
   (h₄.1 (by decide)).1⟩

/-! ## Lemmas on the login loop -/

theorem attemptsOf_append (es fs : List LoginEvent) :
    attemptsOf (es ++ fs) = attemptsOf es ++ attemptsOf fs := by
  induction es with
  | nil => rfl
  | cons e es ih => cases e <;> simp [attemptsOf, ih]

theorem attemptsOf_snoc_attempt (es : List LoginEvent) (n : Nat) :
    attemptsOf (es ++ [.attempt n]) = attemptsOf es ++ [n] := by
  simp [attemptsOf_append, attemptsOf]

/-- The map built from a Set-Cookie list gives every name the value of its last
cookie. -/
theorem get?_foldl_set_cookies (cs : List (String × String)) (name : String) :
    ∀ acc : GoMap String, (cs.foldl (fun m c => m.set c.1 c.2) acc).get? name =
      match lastValue cs name with
      | some x => some x
      | none => acc.get? name := by
  induction cs with
  | nil => intro acc; rfl
  | cons c cs ih =>
    intro acc
    obtain ⟨k, v⟩ := c
    rw [List.foldl_cons, ih]
    cases hl : lastValue cs name with
    | some x => simp [lastValue, hl]
    | none =>
      by_cases hk : k = name <;> simp [lastValue, hl, GoMap.get?_set, hk]

/-- The loop stops at the first attempt that succeeds, when the failed ones
before it were not the last allowed. -/
theorem loginLoop_success (retries : Nat) (outcome : Nat → LoginAttempt) (a : Nat)
    (statusCode : Int) (body : String) (cs : List (String × String))
    (ha : outcome a = .response statusCode body cs) (hst : statusCode = 200 ∨ statusCode = 302)
    (post : List Nat) :
    ∀ (pre : List Nat) (events : List LoginEvent),
      (∀ j ∈ pre, (outcome j).ok = false ∧ j < retries) →
      ∃ events', loginLoop retries outcome (pre ++ a :: post) events =
          ⟨some (cs.foldl (fun m c => m.set c.1 c.2) []), none, events'⟩ ∧
        attemptsOf events' = attemptsOf events ++ pre ++ [a] := by
  intro pre
  induction pre with
  | nil =>
    intro events _
    have hcond : ¬ (statusCode ≠ 200 ∧ statusCode ≠ 302) := by
      rcases hst with h | h <;> simp [h]
    refine ⟨events ++ [.attempt a], ?_, ?_⟩
    · simp only [List.nil_append, loginLoop, ha, if_neg hcond]
    · simp [attemptsOf_snoc_attempt]
  | cons p pre ih =>
    intro events hpre
    have hp := hpre p (List.mem_cons_self _ _)
    have hrest : ∀ j ∈ pre, (outcome j).ok = false ∧ j < retries :=
      fun j hj => hpre j (List.mem_cons_of_mem _ hj)
    cases hout : outcome p with
    | newRequestError e =>
      obtain ⟨events', h1, h2⟩ := ih (events ++ [.attempt p]) hrest
      refine ⟨events', ?_, ?_⟩
      · simp only [List.cons_append, loginLoop, hout]
        exact h1
      · simp [h2, attemptsOf_append, attemptsOf]
    | doError e =>
      obtain ⟨events', h1, h2⟩ := ih (events ++ [.attempt p] ++ [.sleep 2]) hrest
      refine ⟨events', ?_, ?_⟩
      · simp only [List.cons_append, loginLoop, hout, if_pos hp.2]
        exact h1
      · simp [h2, attemptsOf_append, attemptsOf]
    | response st b c =>
      have hfail : st ≠ 200 ∧ st ≠ 302 := by
        have := hp.1
        simp only [hout, LoginAttempt.ok, Bool.or_eq_false_iff, decide_eq_false_iff_not] at this
        exact this
      obtain ⟨events', h1, h2⟩ := ih (events ++ [.attempt p] ++ [.sleep 2]) hrest
      refine ⟨events', ?_, ?_⟩
      · simp only [List.cons_append, loginLoop, hout, if_pos hfail, if_pos hp.2]
        exact h1
      · simp [h2, attemptsOf_append, attemptsOf]

/-- When every attempt fails, the loop runs through all of them and returns
nil and an error. -/
theorem loginLoop_failure (retries : Nat) (outcome : Nat → LoginAttempt) :
    ∀ (l : List Nat) (events : List LoginEvent),
      (∀ j ∈ l.dropLast, j < retries) → (∀ j ∈ l, (outcome j).ok = false) →
      (loginLoop retries outcome l events).cookies = none ∧
      (loginLoop retries outcome l events).err ≠ none ∧
      attemptsOf (loginLoop retries outcome l events).events = attemptsOf events ++ l := by
  intro l
  induction l with
  | nil => intro events _ _; simp [loginLoop]
  | cons p l ih =>
    intro events hlt hfail
    have hrest : ∀ j ∈ l, (outcome j).ok = false :=
      fun j hj => hfail j (List.mem_cons_of_mem _ hj)
    cases l with
    | nil =>
      cases hout : outcome p with
      | newRequestError e => simp [loginLoop, hout, attemptsOf_append, attemptsOf]
      | doError e =>
        by_cases hp : p < retries <;>
          simp [loginLoop, hout, hp, attemptsOf_append, attemptsOf]
      | response st b c =>
        have hbad : st ≠ 200 ∧ st ≠ 302 := by
          have := hfail p (List.mem_cons_self _ _)
          simp only [hout, LoginAttempt.ok, Bool.or_eq_false_iff, decide_eq_false_iff_not] at this
          exact this
        by_cases hp : p < retries <;>
          simp [loginLoop, hout, hp, hbad, attemptsOf_append, attemptsOf]
    | cons q l =>
      have hp : p < retries := hlt p (by simp [List.dropLast])
      have hlt' : ∀ j ∈ (q :: l).dropLast, j < retries := by
        intro j hj
        exact hlt j (by simp only [List.dropLast_cons₂]; exact List.mem_cons_of_mem _ hj)
      cases hout : outcome p with
      | newRequestError e =>
        have := ih (events ++ [.attempt p]) hlt' hrest
        simp only [loginLoop, hout] at this ⊢
        simpa [attemptsOf_append, attemptsOf] using this
      | doError e =>
        have := ih (events ++ [.attempt p] ++ [.sleep 2]) hlt' hrest
        simp only [loginLoop, hout, if_pos hp] at this ⊢
        simpa [attemptsOf_append, attemptsOf] using this
      | response st b c =>
        have hbad : st ≠ 200 ∧ st ≠ 302 := by
          have := hfail p (List.mem_cons_self _ _)
          simp only [hout, LoginAttempt.ok, Bool.or_eq_false_iff, decide_eq_false_iff_not] at this
          exact this
        have := ih (events ++ [.attempt p] ++ [.sleep 2]) hlt' hrest
        simp only [loginLoop, hout, if_pos hp, if_pos hbad] at this ⊢
        simpa [attemptsOf_append, attemptsOf] using this

/-- The attempts of the loop are the attempt numbers it was given, up to where
it stopped. -/
theorem loginLoop_attempts_initial (retries : Nat) (outcome : Nat → LoginAttempt) :
    ∀ (l : List Nat) (events : List LoginEvent),
      ∃ k, k ≤ l.length ∧
        attemptsOf (loginLoop retries outcome l events).events = attemptsOf events ++ l.take k := by
  intro l
  induction l with
  | nil => intro events; exact ⟨0, le_refl _, by simp [loginLoop]⟩
  | cons p l ih =>
    intro events
    have hstop : ∃ k, k ≤ (p :: l).length ∧
        attemptsOf (events ++ [.attempt p]) = attemptsOf events ++ (p :: l).take k :=
      ⟨1, by simp, by simp [attemptsOf_snoc_attempt]⟩
    have hgo : ∀ ev, attemptsOf ev = attemptsOf events ++ [p] →
        ∃ k, k ≤ (p :: l).length ∧
          attemptsOf (loginLoop retries outcome l ev).events =
            attemptsOf events ++ (p :: l).take k := by
      intro ev hev
      obtain ⟨k, hk, h⟩ := ih ev
      exact ⟨k + 1, by simpa using hk, by simp [h, hev]⟩
    cases hout : outcome p with
    | newRequestError e =>
      simp only [loginLoop, hout]
      exact hgo _ (attemptsOf_snoc_attempt _ _)
    | doError e =>
      by_cases hp : p < retries
      · simp only [loginLoop, hout, if_pos hp]
        exact hgo _ (by simp [attemptsOf_append, attemptsOf])
      · simp only [loginLoop, hout, if_neg hp]
        exact hstop
    | response st b c =>
      by_cases hbad : st ≠ 200 ∧ st ≠ 302
      · by_cases hp : p < retries
        · simp only [loginLoop, hout, if_pos hbad, if_pos hp]
          exact hgo _ (by simp [attemptsOf_append, attemptsOf])
        · simp only [loginLoop, hout, if_pos hbad, if_neg hp]
          exact hstop
      · simp only [loginLoop, hout, if_neg hbad]
        exact hstop

/-! ## C6: at most twenty login attempts -/

/-- C6. Whatever the login attempts meet, `GetCookies` makes the attempts
1, 2, ... up to some number that is at most 20.  If attempt `k ≤ 20` is the first
whose response has status 200 or 302, it makes exactly the attempts 1..k and
returns, with no error, the mapping from name to value of that response's
cookies.  If none of the attempts 1..20 succeeds, it makes exactly the attempts
1..20 and returns a nil mapping and a non-nil error. -/
theorem GetCookies_at_most_twenty_attempts (outcome : Nat → LoginAttempt) :
    (∃ k, k ≤ 20 ∧ attemptsOf (GetCookies outcome).events = List.range' 1 k) ∧
    (∀ (k : Nat) (statusCode : Int) (body : String) (cs : List (String × String)),
      1 ≤ k → k ≤ 20 → outcome k = .response statusCode body cs →
      (statusCode = 200 ∨ statusCode = 302) →
      (∀ j, 1 ≤ j → j < k → (outcome j).ok = false) →
      ∃ cookies, (GetCookies outcome).cookies = some cookies ∧
        (∀ name, cookies.get? name = lastValue cs name) ∧
        (GetCookies outcome).err = none ∧
        attemptsOf (GetCookies outcome).events = List.range' 1 k) ∧
    ((∀ j, 1 ≤ j → j ≤ 20 → (outcome j).ok = false) →
      (GetCookies outcome).cookies = none ∧ (GetCookies outcome).err ≠ none ∧
      attemptsOf (GetCookies outcome).events = List.range' 1 20) := by
  refine ⟨?_, ?_, ?_⟩
  · obtain ⟨k, hk, h⟩ := loginLoop_attempts_initial 20 outcome (List.range' 1 20) []
    refine ⟨k, by simpa using hk, ?_⟩
    have hk20 : k ≤ 20 := by simpa using hk
    have htake : List.take k (List.range' 1 20) = List.range' 1 k := by
      interval_cases k <;> rfl
    rw [GetCookies, h, htake]
    rfl
  · intro k statusCode body cs hk1 hk20 hout hst hbefore
    have hsplit : List.range' 1 20 = List.range' 1 (k - 1) ++ k :: List.range' (k + 1) (20 - k) := by
      interval_cases k <;> rfl
    have hpre : ∀ j ∈ List.range' 1 (k - 1), (outcome j).ok = false ∧ j < 20 := by
      intro j hj
      rw [List.mem_range'_1] at hj
      exact ⟨hbefore j hj.1 (by omega), by omega⟩
    obtain ⟨events', h1, h2⟩ := loginLoop_success 20 outcome k statusCode body cs hout hst
      (List.range' (k + 1) (20 - k)) (List.range' 1 (k - 1)) [] hpre
    rw [← hsplit] at h1
    refine ⟨cs.foldl (fun m c => m.set c.1 c.2) [], ?_, ?_, ?_, ?_⟩
    · rw [GetCookies, h1]
    · intro name
      rw [get?_foldl_set_cookies]
      cases lastValue cs name <;> rfl
    · rw [GetCookies, h1]
    · rw [GetCookies, h1]
      simp only [h2, attemptsOf, List.nil_append]
      have hk : List.range' 1 (k - 1) ++ [k] = List.range' 1 k := by
        interval_cases k <;> rfl
      exact hk
  · intro hall
    have h := loginLoop_failure 20 outcome (List.range' 1 20) [] (by decide)
      (fun j hj => by
        rw [List.mem_range'_1] at hj
        exact hall j hj.1 (by omega))
    exact ⟨h.1, h.2.1, by simpa [attemptsOf] using h.2.2⟩

/-- C6 at a login that fails 19 times and succeeds at the 20th attempt, and at
one that always fails. -/
theorem GetCookies_at_most_twenty_attempts_witness :
    (∃ cookies, (GetCookies (failingLogin 19)).cookies = some cookies ∧
      cookies.get? "JSESSIONID" = some "def" ∧
      (GetCookies (failingLogin 19)).err = none ∧
      attemptsOf (GetCookies (failingLogin 19)).events = List.range' 1 20) ∧
    ((GetCookies (failingLogin 20)).cookies = none ∧ (GetCookies (failingLogin 20)).err ≠ none ∧
      attemptsOf (GetCookies (failingLogin 20)).events = List.range' 1 20) :=
  have h₁ := (GetCookies_at_most_twenty_attempts (failingLogin 19)).2.1 20 302 ""
    [("JSESSIONID", "abc"), ("JSESSIONID", "def")] (by decide) (by decide) rfl (Or.inr rfl)
    (fun j _ hj => by
      have hle : j ≤ 19 := by omega
      simp [failingLogin, hle, LoginAttempt.ok])
  have h₂ := (GetCookies_at_most_twenty_attempts (failingLogin 20)).2.2
    (fun j _ hj => by simp [failingLogin, hj, LoginAttempt.ok])
  ⟨match h₁ with
   | ⟨cookies, hc, hget, herr, hatt⟩ => ⟨cookies, hc, (hget "JSESSIONID").trans (by decide), herr, hatt⟩,
   h₂⟩

/-! ## C7: the retry after a failed `http.NewRequest` -/

/-- C7. At a login URL that `http.NewRequest` rejects (so that every attempt
fails at the construction of the request), `GetCookies` makes its twenty
attempts one right after the other, with no sleep between them, and returns nil
and the final error; when instead every attempt meets a transport error, each
of the attempts 1..19 is followed by one sleep of 2 seconds and attempt 20 by
none. -/
theorem GetCookies_newRequestError_retries_without_sleep :
    (GetCookies (fun _ => .newRequestError "missing protocol scheme")).events =
      (List.range' 1 20).map LoginEvent.attempt ∧
    (GetCookies (fun _ => .newRequestError "missing protocol scheme")).cookies = none ∧
    (GetCookies (fun _ => .newRequestError "missing protocol scheme")).err =
      some "达到最大重试次数，登录失败" ∧
    (GetCookies (fun _ => .doError "connection refused")).events =
      (List.range' 1 19).flatMap (fun n => [LoginEvent.attempt n, LoginEvent.sleep 2]) ++
        [LoginEvent.attempt 20] := by
  decide

/-! ## Lemmas on `client.Do` -/

/-- When no response asks for the body to be sent again, the request that
follows a POST or a GET is a GET. -/
theorem nextHop_follow_method {σ : Type} (net : Client σ) (ireq req next : Request)
    (resp : HttpResponse)
    (hsafe : (resp.statusCode = 307 ∨ resp.statusCode = 308) → resp.location = "")
    (hm : req.method = "POST" ∨ req.method = "GET")
    (h : nextHop net ireq req resp = .follow next) : next.method = "GET" := by
  unfold nextHop redirectBehavior at h
  by_cases h3 : resp.statusCode = 301 ∨ resp.statusCode = 302 ∨ resp.statusCode = 303
  · simp only [if_pos h3] at h
    by_cases hloc : resp.location = ""
    · simp [hloc] at h
    · simp only [if_neg hloc] at h
      cases hp : net.parseLocation req.url resp.location with
      | none => simp [hp] at h
      | some u =>
        simp only [hp, Hop.follow.injEq] at h
        rw [← h]
        rcases hm with hm | hm <;> simp [hm]
  · simp only [if_neg h3] at h
    by_cases h7 : resp.statusCode = 307 ∨ resp.statusCode = 308
    · simp [if_pos h7, hsafe h7] at h
    · simp [if_neg h7] at h

/-- The requests sent by the loop of `client.Do` are those already sent, then
the request it was given, then redirected requests; the latter are GETs when no
response asks for the body to be sent again. -/
theorem doLoop_sent {σ : Type} (net : Client σ) (ireq : Request) :
    ∀ (budget : Nat) (req : Request) (via : List Request) (w : σ),
      ∃ rest, (doLoop net ireq budget req via w).sent = via ++ req :: rest ∧
        (noBodyRedirect net → (req.method = "POST" ∨ req.method = "GET") →
          ∀ r ∈ rest, r.method = "GET") := by
  intro budget
  induction budget with
  | zero =>
    intro req via w
    refine ⟨[], ?_, fun _ _ r hr => absurd hr (List.not_mem_nil r)⟩
    rw [doLoop]
    rcases hrt : net.roundTrip w req with ⟨ex, w'⟩
    cases ex with
    | error e => simp
    | response resp => cases hhop : nextHop net ireq req resp <;> simp [hhop]
  | succ b ih =>
    intro req via w
    rw [doLoop]
    rcases hrt : net.roundTrip w req with ⟨ex, w'⟩
    cases ex with
    | error e => exact ⟨[], by simp, fun _ _ r hr => absurd hr (List.not_mem_nil r)⟩
    | response resp =>
      cases hhop : nextHop net ireq req resp with
      | deliver => exact ⟨[], by simp [hhop], fun _ _ r hr => absurd hr (List.not_mem_nil r)⟩
      | fail e => exact ⟨[], by simp [hhop], fun _ _ r hr => absurd hr (List.not_mem_nil r)⟩
      | follow next =>
        obtain ⟨rest, h1, h2⟩ := ih next (via ++ [req]) w'
        refine ⟨next :: rest, by simpa [hhop] using h1, ?_⟩
        intro hsafe hm r hr
        have hnext : next.method = "GET" :=
          nextHop_follow_method net ireq req next resp (hsafe w w' req resp hrt) hm hhop
        rcases List.mem_cons.mp hr with rfl | hr
        · exact hnext
        · exact h2 hsafe (Or.inr hnext) r hr

theorem postCount_append (a b : List Request) : postCount (a ++ b) = postCount a + postCount b := by
  simp [postCount]

theorem postCount_group (first : Request) (rest : List Request) (hfirst : first.method = "POST")
    (hrest : ∀ r ∈ rest, r.method = "GET") : postCount (first :: rest) = 1 := by
  have hnone : rest.filter (fun r => decide (r.method = "POST")) = [] := by
    rw [List.filter_eq_nil_iff]
    intro r hr
    simp [hrest r hr]
  simp [postCount, List.filter_cons, hfirst, hnone]

/-- The headers of the request of `order` are those returned by `getOrderData`. -/
theorem orderRequest_header_perm (ro : RangeOrder) (config : Config) (target : TargetConfig)
    (cookies : GoMap String) (okAreaDict : GoMap AreaInfo) (payload : Option String) :
    (orderRequest ro config (getOrderData ro target cookies okAreaDict).1 payload).header.Perm
      (getOrderData ro target cookies okAreaDict).1 := by
  have hkeys : ((getOrderData ro target cookies okAreaDict).1.map Prod.fst).Nodup := by
    rw [getOrderData_headers, List.map_append]
    refine (((ro.perm BASIC_HEADERS).map Prod.fst).append_right _).nodup_iff.mpr ?_
    simp only [List.map_cons, List.map_nil]
    decide
  have hnd : ((ro.order (getOrderData ro target cookies okAreaDict).1).map Prod.fst).Nodup :=
    (((ro.perm _).map Prod.fst).nodup_iff).mpr hkeys
  have hfold := GoMap.foldl_set_fresh (V := String) Prod.fst Prod.snd
    (ro.order (getOrderData ro target cookies okAreaDict).1) [] (by simpa using hnd)
  simp only [List.nil_append, Prod.mk.eta, List.map_id_fun, id_eq, List.map_id,
    List.map_id'] at hfold
  simp only [orderRequest, hfold]
  exact ro.perm _

/-! ## C8: `main` orders every target -/

/-- The requests that one call of `order` sends when the pay URL is well
formed: none if the key of the target is absent; otherwise its own request,
followed by the redirected requests of `client.Do`, which are GETs when no
response asks for the body to be sent again. -/
theorem order_sent {σ : Type} (ro : RangeOrder) (net : Client σ) (config : Config)
    (target : TargetConfig) (cookies : GoMap String) (okAreaDict : GoMap AreaInfo) (w : σ)
    (hurl : net.newRequestErr config.APIs.Pay = none) :
    (keyPresent okAreaDict target = false →
      (order ro net config target cookies okAreaDict w).sent = []) ∧
    (keyPresent okAreaDict target = true →
      ∃ rest, (order ro net config target cookies okAreaDict w).sent =
          orderRequest ro config (getOrderData ro target cookies okAreaDict).1
            (getOrderData ro target cookies okAreaDict).2 :: rest ∧
        (noBodyRedirect net → ∀ r ∈ rest, r.method = "GET")) := by
  cases hget : okAreaDict.get? (targetTimeStr target ++ targetName target) with
  | none =>
    have hnil := (getOrderData_payload_none_iff ro target cookies okAreaDict).mpr hget
    refine ⟨fun _ => by simp [order, hnil, payloadLen], fun hp => ?_⟩
    simp [keyPresent, targetKey, hget] at hp
  | some areaData =>
    have hlen := getOrderData_payloadLen_of_present ro target cookies okAreaDict
      (by rw [hget]; exact Option.some_ne_none _)
    refine ⟨fun hp => by simp [keyPresent, targetKey, hget] at hp, fun _ => ?_⟩
    obtain ⟨rest, h1, h2⟩ := doLoop_sent net
      (orderRequest ro config (getOrderData ro target cookies okAreaDict).1
        (getOrderData ro target cookies okAreaDict).2) 9
      (orderRequest ro config (getOrderData ro target cookies okAreaDict).1
        (getOrderData ro target cookies okAreaDict).2) [] w
    refine ⟨rest, ?_, fun hsafe => h2 hsafe (Or.inl rfl)⟩
    simp only [List.nil_append] at h1
    simp only [order, hlen, hurl, if_false]
    cases hres : (clientDo net (orderRequest ro config
      (getOrderData ro target cookies okAreaDict).1
      (getOrderData ro target cookies okAreaDict).2) w).result with
    | error e => exact h1
    | ok resp =>
      by_cases hm : resp.message = "未支付" ∨ resp.message = "预订成功" ∨
          resp.message = "本天预订数量超过限制"
      · simp only [if_pos hm]; exact h1
      · simp only [if_neg hm]; exact h1


/-- The loop over the targets, entered with a nil `err`, calls `order` once for
every target, in order, and skips none; what it sends is, for each target whose
key is present, the requests of one `client.Do` that starts with the request of
that target. -/
theorem orderLoop_spec {σ : Type} (ro : RangeOrder) (net : Client σ) (config : Config)
    (cookies : GoMap String) (okAreaMap : GoMap AreaInfo) :
    ∀ (targets : List TargetConfig) (run : MainRun σ),
      (orderLoop ro net config cookies okAreaMap none targets run).fatal = run.fatal ∧
      (orderLoop ro net config cookies okAreaMap none targets run).results.map (fun r => r.1) =
        run.results.map (fun r => r.1) ++ targets ∧
      (orderLoop ro net config cookies okAreaMap none targets run).skipped = run.skipped ∧
      (net.newRequestErr config.APIs.Pay = none →
        ∃ groups : List (List Request),
          (orderLoop ro net config cookies okAreaMap none targets run).sent =
            run.sent ++ groups.flatten ∧
          List.Forall₂ (fun t g => ∃ rest, g =
              orderRequest ro config (getOrderData ro t cookies okAreaMap).1
                (getOrderData ro t cookies okAreaMap).2 :: rest)
            (targets.filter (keyPresent okAreaMap)) groups ∧
          (noBodyRedirect net →
            postCount (orderLoop ro net config cookies okAreaMap none targets run).sent =
              postCount run.sent + (targets.filter (keyPresent okAreaMap)).length)) := by
  intro targets
  induction targets with
  | nil =>
    intro run
    refine ⟨rfl, by simp [orderLoop], rfl, fun _ => ⟨[], by simp [orderLoop], ?_, ?_⟩⟩
    · exact List.Forall₂.nil
    · intro _; simp [orderLoop]
  | cons t targets ih =>
    intro run
    simp only [orderLoop]
    obtain ⟨h1, h2, h3, h4⟩ := ih
      { run with
        results := run.results ++ [(t, (order ro net config t cookies okAreaMap run.world).success,
          (order ro net config t cookies okAreaMap run.world).err)]
        sent := run.sent ++ (order ro net config t cookies okAreaMap run.world).sent
        world := (order ro net config t cookies okAreaMap run.world).world }
    refine ⟨h1, ?_, h3, ?_⟩
    · rw [h2]; simp
    · intro hurl
      obtain ⟨groups, hsent, hgroups, hcount⟩ := h4 hurl
      have hsentOrder := order_sent ro net config t cookies okAreaMap run.world hurl
      cases hp : keyPresent okAreaMap t with
      | false =>
        have hnone := hsentOrder.1 hp
        rw [hnone] at hsent hcount ⊢
        refine ⟨groups, by rw [hsent, List.append_nil], ?_, ?_⟩
        · simpa [List.filter_cons, hp] using hgroups
        · intro hsafe
          rw [hcount hsafe, List.append_nil]
          simp [List.filter_cons, hp]
      | true =>
        obtain ⟨rest, hreq, hget⟩ := hsentOrder.2 hp
        rw [hreq] at hsent hcount ⊢
        refine ⟨(orderRequest ro config (getOrderData ro t cookies okAreaMap).1
          (getOrderData ro t cookies okAreaMap).2 :: rest) :: groups, ?_, ?_, ?_⟩
        · rw [hsent]; simp
        · rw [List.filter_cons, if_pos hp]
          exact List.Forall₂.cons ⟨rest, rfl⟩ hgroups
        · intro hsafe
          rw [hcount hsafe, postCount_append,
            postCount_group _ rest rfl (hget hsafe), List.filter_cons, if_pos hp,
            List.length_cons]
          omega

/-- C8. Once the configuration is read, the availability fetch has succeeded and
the login has succeeded, `main` stops with no fatal error, calls `order` exactly
once for every configured target, in the configured order, whatever the
network answers, and skips none.  With a well-formed pay URL, what it sends is,
for each target whose composite key is present, in order, the requests of one
`client.Do`, the first of which is a POST to the pay URL with the headers and
the payload of that target, the others being redirected requests; nothing is
sent for the other targets.  When no response with status 307 or 308 carries a
`Location`, the number of POST requests sent equals the number of targets whose
composite key is present. -/
theorem main_orders_every_target {σ : Type} (ro : RangeOrder) (net : Client σ)
    (readConfig : Except String Config) (fetch : String → String → Except String (List Area))
    (today : String) (login : Nat → LoginAttempt) (w : σ) (config : Config)
    (okAreaMap : GoMap AreaInfo)
    (hconfig : readConfig = .ok config)
    (hfetch : findOkArea fetch config.APIs.FindOkArea today = .ok okAreaMap)
    (hlogin : (GetCookies login).err = none) :
    (main ro net readConfig fetch today login w).fatal = none ∧
    (main ro net readConfig fetch today login w).results.map (fun r => r.1) = config.Target ∧
    (main ro net readConfig fetch today login w).skipped = [] ∧
    (net.newRequestErr config.APIs.Pay = none →
      ∃ groups : List (List Request),
        (main ro net readConfig fetch today login w).sent = groups.flatten ∧
        groups.length = (config.Target.filter (keyPresent okAreaMap)).length ∧
        List.Forall₂ (fun t g => ∃ first rest, g = first :: rest ∧
            first.method = "POST" ∧ first.url = config.APIs.Pay ∧
            first.body =
              (getOrderData ro t ((GetCookies login).cookies.getD []) okAreaMap).2.getD "" ∧
            first.header.Perm
              (getOrderData ro t ((GetCookies login).cookies.getD []) okAreaMap).1)
          (config.Target.filter (keyPresent okAreaMap)) groups ∧
        (noBodyRedirect net →
          postCount (main ro net readConfig fetch today login w).sent =
            (config.Target.filter (keyPresent okAreaMap)).length)) := by
  subst hconfig
  have hmain : main ro net (.ok config) fetch today login w =
      orderLoop ro net config ((GetCookies login).cookies.getD []) okAreaMap none config.Target
        ⟨none, [], [], [], w⟩ := by
    simp only [main, hfetch, hlogin]
  obtain ⟨h1, h2, h3, h4⟩ := orderLoop_spec ro net config ((GetCookies login).cookies.getD [])
    okAreaMap config.Target ⟨none, [], [], [], w⟩
  rw [hmain]
  refine ⟨h1, by simpa using h2, h3, ?_⟩
  intro hurl
  obtain ⟨groups, hsent, hgroups, hcount⟩ := h4 hurl
  refine ⟨groups, by simpa using hsent, hgroups.length_eq.symm, ?_, ?_⟩
  · refine hgroups.imp ?_
    rintro t g ⟨rest, rfl⟩
    exact ⟨_, rest, rfl, rfl, rfl, rfl, orderRequest_header_perm ro config t _ okAreaMap _⟩
  · intro hsafe
    have := hcount hsafe
    simpa [postCount] using this

/-- A script in which no response has a `Location` never asks for the body to
be sent again. -/
theorem scriptedClient_noBodyRedirect (script : List HttpResponse)
    (h : ∀ r ∈ script, r.location = "") : noBodyRedirect (scriptedClient script) := by
  intro w w' req resp hrt _
  simp only [scriptedClient, Prod.mk.injEq, Exchange.response.injEq] at hrt
  rw [← hrt.1]
  by_cases hw : w < script.length
  · rw [List.getD_eq_getElem _ _ hw]
    exact h _ (List.getElem_mem _)
  · rw [List.getD_eq_default _ _ (by omega)]

/-- C8 at two targets of which only the first has its key in the availability
mapping, with a server that confirms the order: `order` is called for both,
exactly one request is sent, and it is the POST of the first target. -/
theorem main_orders_every_target_witness :
    (main RangeOrder.id (scriptedClient [⟨200, "", "预订成功"⟩])
      (.ok (exampleConfig [⟨14, 3⟩, ⟨14, 4⟩])) exampleFetch "2024-05-01" (failingLogin 0) 0).results
      = [(⟨14, 3⟩, true, some "预订成功: 预订成功"), (⟨14, 4⟩, false, some "获取预订数据失败")] ∧
    postCount (main RangeOrder.id (scriptedClient [⟨200, "", "预订成功"⟩])
      (.ok (exampleConfig [⟨14, 3⟩, ⟨14, 4⟩])) exampleFetch "2024-05-01" (failingLogin 0) 0).sent
      = 1 ∧
    (main RangeOrder.id (scriptedClient [⟨200, "", "预订成功"⟩])
      (.ok (exampleConfig [⟨14, 3⟩, ⟨14, 4⟩])) exampleFetch "2024-05-01" (failingLogin 0) 0).sent.map
        (fun r => (r.method, r.url, r.body))
      = [("POST", "http://ydfwpt.cug.edu.cn/pay", payloadText "4021" "77")] :=
  have h := main_orders_every_target RangeOrder.id (scriptedClient [⟨200, "", "预订成功"⟩])
    (.ok (exampleConfig [⟨14, 3⟩, ⟨14, 4⟩])) exampleFetch "2024-05-01" (failingLogin 0) 0
    (exampleConfig [⟨14, 3⟩, ⟨14, 4⟩]) exampleAreas rfl rfl (by decide)
  ⟨by decide,
   match h.2.2.2 rfl with
   | ⟨_, _, _, _, hcount⟩ =>
     (hcount (scriptedClient_noBodyRedirect _ (by decide))).trans (by decide),
   by decide⟩

/-- C8 refuted as stated: with the same two targets and a well-formed pay URL,
a server that answers the order POST with status 307 and a `Location` makes
`client.Do` send the POST a second time, so two POST requests are sent although
only one target has its key in the availability mapping. -/
theorem main_redirect_sends_two_posts :
    (main RangeOrder.id
      (scriptedClient [⟨307, "http://ydfwpt.cug.edu.cn/pay", ""⟩, ⟨200, "", "预订成功"⟩])
      (.ok (exampleConfig [⟨14, 3⟩, ⟨14, 4⟩])) exampleFetch "2024-05-01" (failingLogin 0) 0).fatal
      = none ∧
    (scriptedClient [⟨307, "http://ydfwpt.cug.edu.cn/pay", ""⟩,
      ⟨200, "", "预订成功"⟩]).newRequestErr (exampleConfig [⟨14, 3⟩, ⟨14, 4⟩]).APIs.Pay = none ∧
    ([⟨14, 3⟩, ⟨14, 4⟩].filter (keyPresent exampleAreas)).length = 1 ∧
    (main RangeOrder.id
      (scriptedClient [⟨307, "http://ydfwpt.cug.edu.cn/pay", ""⟩, ⟨200, "", "预订成功"⟩])
      (.ok (exampleConfig [⟨14, 3⟩, ⟨14, 4⟩])) exampleFetch "2024-05-01" (failingLogin 0) 0).sent.map
        (fun r => (r.method, r.url, r.body))
      = [("POST", "http://ydfwpt.cug.edu.cn/pay", payloadText "4021" "77"),
         ("POST", "http://ydfwpt.cug.edu.cn/pay", payloadText "4021" "77")] ∧
    postCount (main RangeOrder.id
      (scriptedClient [⟨307, "http://ydfwpt.cug.edu.cn/pay", ""⟩, ⟨200, "", "预订成功"⟩])
      (.ok (exampleConfig [⟨14, 3⟩, ⟨14, 4⟩])) exampleFetch "2024-05-01" (failingLogin 0) 0).sent
      ≠ ([⟨14, 3⟩, ⟨14, 4⟩].filter (keyPresent exampleAreas)).length := by
  decide

end Badminton
